import Mathlib

/-!
Verification of isobar.c, the ISO Boot Archive Remover.

A shallow embedding of `src/isobar.c` (ISOBAR 1.02): the sector reader
`CDReadLong` for the file backend, and the part of `main` that follows the
allocation of the transfer buffer (lines 265 to 385): the volume descriptor
check, the decoding of the boot catalog, the resolution of the image size and
the extraction loop.

Modelling conventions.

* The program has two builds, selected by `#ifdef _WIN32`; they differ in `MAX`
  and in the width of `UINT`.  Every definition takes the build as a parameter.
* `long` is a signed 32-bit integer in both builds: a `long` variable is an
  `Int`, and every assignment to it goes through `toLong` (two's complement
  wrap-around, which is what both compilers generate).  `DWORD` values are
  naturals below `2^32` (`toDWORD`), `UINT` values naturals below
  `2^(uintBits b)` (`toUINT`).
* The input is a file, a byte sequence of known size.  The operating system
  calls (`SetFilePointer`/`lseek`, `ReadFile`/`_dos_read`, `write`/`_dos_write`)
  are modelled by `seek`, by the read inside `CDReadLong` and by `Sink.write`.
  The MSCDEX branch of `CDReadLong` (interrupt 2Fh, taken by the DOS build when
  the input is a drive) calls an external driver and is not embedded.
* `calls` and `shown` record the `CDReadLong` calls made and the lines printed
  on standard output, oldest first.
-/

namespace Isobar

/-! ## Builds and machine integers -/

/-- The two builds of the program: `_WIN32` defined, or not (the DOS build). -/
inductive Build where
  | win32
  | dos
  deriving DecidableEq, Repr

/-- Source lines 36 and 46: `#define MAX 32` and `#define MAX 30u`. -/
def MAX : Build → Nat
  | .win32 => 32
  | .dos => 30

/-- Width of `UINT` (`unsigned int`): 32 bits for Win32, 16 bits for DOS. -/
def uintBits : Build → Nat
  | .win32 => 32
  | .dos => 16

/-- Conversion to `DWORD` (`unsigned long`, 32 bits). -/
def toDWORD (x : Int) : Nat := (x % 4294967296).toNat

/-- Conversion to `long` (signed, 32 bits, two's complement). -/
def toLong (x : Int) : Int := (x + 2147483648) % 4294967296 - 2147483648

/-- Conversion to `UINT`. -/
def toUINT (b : Build) (x : Int) : Nat := (x % (2 ^ uintBits b : Nat)).toNat

/-- Lines 73 to 82: the exit codes. -/
def E_OK : Nat := 0

/-- Unknown or invalid option. -/
def E_OPT : Nat := 1

/-- Not enough memory. -/
def E_MEM : Nat := 2

/-- Not a CD drive, unknown CD format or no CD present. -/
def E_NOCD : Nat := 3

/-- Unable to create the image file. -/
def E_CREATE : Nat := 4

/-- Read or write error. -/
def E_ABORTED : Nat := 5

/-! ## The input file, the transfer buffer and the program state -/

/-- The input opened as `fdin`: `size` bytes, `byte i` being the byte at offset `i`
(only offsets below `size` can be read). -/
structure File where
  size : Nat
  byte : Nat → UInt8

/-- The lines `main` prints on standard output, with the values shown. -/
inductive Line where
  | catalogSector (v : Nat)
  | platformLine (name : String) (v : Nat)
  | idString (s : Option (List UInt8))
  | bootable (yes : Bool) (v : Nat)
  | bootType (name : String) (v : Nat)
  | loadSegment (v : Nat)
  | systemType (v : Nat)
  | sectorCount (v : Nat)
  | imageSector (v : Nat)
  | imageSize (v : Int)
  | saved
  deriving DecidableEq, Repr

/-- The mutable state of a run: the input file and its operating system file
pointer `fp`, the static `pos` of `CDReadLong`, the contents of the transfer
buffer `buf` (index `i` is `buf[i]`), and the two logs. -/
structure St where
  fdin : File
  fp : Nat
  pos : Int
  buf : Nat → UInt8
  calls : List (Nat × Nat)
  shown : List Line

/-- The state when `main` reaches line 265: file pointer at the start of the
file, `pos = 0`, a freshly allocated buffer of unspecified contents `buf0`. -/
def St.init (image : File) (buf0 : Nat → UInt8) : St :=
  { fdin := image, fp := 0, pos := 0, buf := buf0, calls := [], shown := [] }

/-- Value of `(BYTE)buf[o]`. -/
def rdBYTE (buf : Nat → UInt8) (o : Nat) : Nat := (buf o).toNat

/-- Value of `*(WORD far*)(buf+o)`: 16 bits, little endian. -/
def rdWORD (buf : Nat → UInt8) (o : Nat) : Nat := rdBYTE buf o + 256 * rdBYTE buf (o + 1)

/-- Value of `*(DWORD far*)(buf+o)`: 32 bits, little endian. -/
def rdDWORD (buf : Nat → UInt8) (o : Nat) : Nat := rdWORD buf o + 65536 * rdWORD buf (o + 2)

/-- The `len` bytes of the file that start at offset `a`. -/
def File.bytes (f : File) (a len : Nat) : List UInt8 :=
  (List.range len).map (fun i => f.byte (a + i))

/-- The first `len` bytes of the buffer. -/
def bufBytes (buf : Nat → UInt8) (len : Nat) : List UInt8 :=
  (List.range len).map buf

/-! ## CDReadLong (lines 388 to 417, file backend) -/

/-- The repositioning call of `CDReadLong`, `SetFilePointer( fdin, ofs, NULL,
FILE_BEGIN )` for Win32 and `lseek( fdin, ofs, SEEK_SET )` for DOS, as a function
of the old file pointer.  Win32 takes `ofs` as a signed 32-bit distance and
refuses a negative one, leaving the pointer where it was; DOS takes the 32 bits
as an unsigned offset. -/
def seek (b : Build) (ofs : Int) (fp : Nat) : Nat :=
  match b with
  | .win32 => if 0 ≤ ofs then ofs.toNat else fp
  | .dos => toDWORD ofs

/-- Lines 388 to 417, `int CDReadLong( UINT SectorCount, DWORD StartSector )`.
`ofs = StartSector << 11` is a 32-bit shift stored in a `long`; the file is
repositioned only when `ofs != pos`; the read transfers as many of the requested
`SectorCount << 11` bytes as the file holds from the file pointer on, `len` of
them, into the start of the buffer; `pos += len`; the result is
`len == (SectorCount << 11)`. -/
def CDReadLong (b : Build) (SectorCount StartSector : Nat) (s : St) : Bool × St :=
  let ofs : Int := toLong (toDWORD (StartSector <<< 11 : Nat))
  let fp := if ofs ≠ s.pos then seek b ofs s.fp else s.fp
  let req := toUINT b (SectorCount <<< 11 : Nat)
  let len := min req (s.fdin.size - fp)
  (len == req,
    { s with
      fp := fp + len
      pos := toLong (s.pos + len)
      buf := fun i => if i < len then s.fdin.byte (fp + i) else s.buf i
      calls := s.calls ++ [(SectorCount, StartSector)] })

/-! ## main, lines 265 to 277: the volume descriptor -/

/-- The messages `main` writes on standard error, one per failure exit. -/
inductive Msg where
  | readError
  | notElTorito
  | invalidCatalog
  | cannotCreate
  | writeError
  deriving DecidableEq, Repr

/-- A failure exit of `main`: the value returned and the message printed. -/
structure Fail where
  code : Nat
  msg : Msg
  deriving DecidableEq, Repr

/-- The characters of the literal `"CD001\01EL TORITO SPECIFICATION"` of line 271
(29 characters; the compiler appends the terminating zero byte). -/
def signature : List UInt8 :=
  [67, 68, 48, 48, 49, 1, 69, 76, 32, 84, 79, 82, 73, 84, 79, 32,
   83, 80, 69, 67, 73, 70, 73, 67, 65, 84, 73, 79, 78]

/-- The library call `_fstrcmp( buf+o, lit )` (`strcmp` for Win32), `lit` being the
characters of a string literal: the bytes are compared in turn, up to the first
difference (the result is then the difference of the two bytes) or up to a
common zero byte (the result is then 0).  The empty list is the terminating zero
byte of the literal. -/
def strcmp (buf : Nat → UInt8) (o : Nat) : List UInt8 → Int
  | [] => ((buf o).toNat : Int)
  | c :: cs =>
    if buf o = c then
      if c = 0 then 0 else strcmp buf (o + 1) cs
    else ((buf o).toNat : Int) - (c.toNat : Int)

/-- Lines 265 to 277 of `main`: read sector 0x11, compare its bytes from offset 1
on with the El Torito signature, and take `bootfound` from offset 0x47. -/
def locateCatalog (b : Build) (s : St) : Except Fail Nat × St :=
  let r := CDReadLong b 1 0x11 s
  if !r.1 then (.error ⟨E_ABORTED, .readError⟩, r.2)
  else if strcmp r.2.buf 1 signature ≠ 0 then (.error ⟨E_NOCD, .notElTorito⟩, r.2)
  else
    let bootfound := rdDWORD r.2.buf 0x47
    (.ok bootfound, { r.2 with shown := r.2.shown ++ [.catalogSector bootfound] })

/-! ## main, lines 279 to 306: the boot catalog -/

/-- Lines 63 to 65: `const char* platform[]`. -/
def platform : List String := ["80x86", "Power PC", "Mac"]

/-- Lines 67 to 71: `const char* boot_type[]`. -/
def boot_type : List String :=
  ["no emulation", "1.2 meg floppy", "1.44 meg floppy", "2.88 meg floppy", "hard disk"]

/-- The variables of `main` that hold the decoded catalog entry after line 306. -/
structure Entry where
  type : Nat
  imgsize : Int
  offset : Int
  deriving DecidableEq, Repr

/-- The argument of `%.24s` at line 294: absent when `buf[4]` is zero, otherwise
the bytes from offset 4 up to a zero byte, 24 at most. -/
def idString (buf : Nat → UInt8) : Option (List UInt8) :=
  if buf 4 ≠ 0 then
    some (((List.range 24).map (fun i => buf (4 + i))).takeWhile (fun c => c != 0))
  else none

/-- Lines 291 to 306 of `main`: the fields shown and kept once the key bytes
have been accepted. -/
def decodeEntry (s : St) : Entry × St :=
  let buf := s.buf
  let type := rdBYTE buf 1
  let l1 := Line.platformLine (if type < 3 then platform.getD type "" else "unknown") type
  let l2 := Line.idString (idString buf)
  let l3 := Line.bootable (buf 0x20 = 0x88) (rdBYTE buf 0x20)
  let type := rdBYTE buf 0x21 &&& 15
  let l4 := Line.bootType (if type < 5 then boot_type.getD type "" else "unknown")
    (rdBYTE buf 0x21)
  let i := rdWORD buf 0x22
  let l5 := Line.loadSegment (if i = 0 then 0x7c0 else i)
  let l6 := Line.systemType (rdBYTE buf 0x24)
  let imgsize : Int := rdWORD buf 0x26
  let l7 := Line.sectorCount (toDWORD imgsize)
  let offset : Int := toLong (rdDWORD buf 0x28)
  let l8 := Line.imageSector (toDWORD offset)
  (⟨type, imgsize, offset⟩, { s with shown := s.shown ++ [l1, l2, l3, l4, l5, l6, l7, l8] })

/-- Lines 279 to 306 of `main`: read the sector `bootfound`, check the key bytes
at 0x1e and 0x1f (only them, not the checksum), decode the entry. -/
def parseCatalog (b : Build) (bootfound : Nat) (s : St) : Except Fail Entry × St :=
  let r := CDReadLong b 1 bootfound s
  if !r.1 then (.error ⟨E_ABORTED, .readError⟩, r.2)
  else if r.2.buf 0x1e ≠ 0x55 ∨ r.2.buf 0x1f ≠ 0xAA then
    (.error ⟨E_NOCD, .invalidCatalog⟩, r.2)
  else
    let d := decodeEntry r.2
    (.ok d.1, d.2)

/-! ## main, lines 308 to 334: the size of the image -/

/-- The variables `blksize`, `imgsize` and `offset` of the program. -/
structure Sizes where
  blksize : Int
  imgsize : Int
  offset : Int
  deriving DecidableEq, Repr

/-- Lines 308 to 332 of `main`: `blksize`, the sector count left in `imgsize` and
the start sector left in `offset`, by emulation type.  The results of the
`CDReadLong` calls of lines 314 and 325 are not looked at. -/
def sizeFields (b : Build) (drive : Bool) (e : Entry) (s : St) : Sizes × St :=
  if e.type = 0 then
    (⟨0x200, e.imgsize, e.offset⟩, s)
  else
    let s1 := (CDReadLong b 1 (toDWORD e.offset) s).2
    if e.type = 4 ∧ drive = false then
      (⟨0x200, toLong (rdDWORD s1.buf 0x1ca), e.offset⟩, s1)
    else
      let offset : Int :=
        if e.type = 4 then toLong (e.offset + ((rdDWORD s1.buf 0x1c6 >>> 2 : Nat) : Int))
        else e.offset
      let s2 := if e.type = 4 then (CDReadLong b 1 (toDWORD offset) s1).2 else s1
      let blksize : Int := rdWORD s2.buf 11
      let imgsize : Int := rdWORD s2.buf 19
      let imgsize : Int := if imgsize = 0 then toLong (rdDWORD s2.buf 32) else imgsize
      (⟨blksize, imgsize, offset⟩, s2)

/-- Lines 308 to 334 of `main`: `sizeFields`, then `imgsize *= blksize` in `long`
arithmetic, then the line showing the image size. -/
def resolveSize (b : Build) (drive : Bool) (e : Entry) (s : St) : Sizes × St :=
  let r := sizeFields b drive e s
  let imgsize := toLong (r.1.imgsize * r.1.blksize)
  (⟨r.1.blksize, imgsize, r.1.offset⟩,
    { r.2 with shown := r.2.shown ++ [.imageSize imgsize] })

/-! ## main, lines 336 to 375: the extraction -/

/-- The output file once `open( outfile, OFLAG, 0777 )` has succeeded: the bytes
written so far and the number of bytes the destination still accepts. -/
structure Sink where
  data : List UInt8
  room : Nat
  deriving DecidableEq, Repr

/-- The calls `write( fdout, buf, len )` and `_dos_write( fdout, buf, len, &w )`:
as many of the `len` bytes as there is room for are appended, and their number
`w` is returned. -/
def Sink.write (k : Sink) (buf : Nat → UInt8) (len : Nat) : Nat × Sink :=
  let w := min len k.room
  (w, { data := k.data ++ bufBytes buf w, room := k.room - w })

/-- The test `len > imgsize` of line 358, `len` being a `UINT` and `imgsize` a
`long`: for Win32 both operands are converted to `unsigned long`, for DOS the
16-bit `len` is converted to `long`. -/
def lenGt (b : Build) (len : Nat) (imgsize : Int) : Bool :=
  match b with
  | .win32 => decide (toDWORD imgsize < len)
  | .dos => decide (imgsize < (len : Int))

/-- The sector count of lines 347 to 351: `n = imgsize >> 11` (an arithmetic shift,
converted to `DWORD`), cut down to `MAX` and raised to 1. -/
def chunk (b : Build) (imgsize : Int) : Nat :=
  let n := toDWORD (imgsize >>> (11 : Nat))
  if n > MAX b then MAX b else if n = 0 then 1 else n

/-- The byte count of lines 357 to 359: `len = (UINT)n << 11`, replaced by
`(UINT)imgsize` when `len > imgsize`. -/
def chunkLen (b : Build) (n : Nat) (imgsize : Int) : Nat :=
  let len := toUINT b ((toUINT b n <<< 11 : Nat) : Int)
  if lenGt b len imgsize then toUINT b imgsize else len

/-- How the extraction loop ended: the failure if any, the state and the output. -/
structure LoopEnd where
  err : Option Fail
  st : St
  out : Sink

/-- Lines 345 to 372 of `main`, the `do ... while (imgsize)` loop.  The first
argument bounds the number of iterations; the result is `none` when the loop is
still running after that many. -/
def extractLoop (b : Build) : Nat → Int → Int → St → Sink → Option LoopEnd
  | 0, _, _, _, _ => none
  | fuel + 1, imgsize, offset, s, k =>
    let n := chunk b imgsize
    let r := CDReadLong b (toUINT b n) (toDWORD offset) s
    if !r.1 then some ⟨some ⟨E_ABORTED, .readError⟩, r.2, k⟩
    else
      let len := chunkLen b n imgsize
      let w := k.write r.2.buf len
      if w.1 ≠ len then some ⟨some ⟨E_ABORTED, .writeError⟩, r.2, w.2⟩
      else
        let offset := toLong (offset + n)
        let imgsize := toLong (imgsize - len)
        if imgsize ≠ 0 then extractLoop b fuel imgsize offset r.2 w.2
        else some ⟨none, r.2, w.2⟩

/-! ## main -/

/-- What the `-o file` option names: whether the file can be created, and how
many bytes can be written to it. -/
structure Outfile where
  creatable : Bool
  room : Nat
  deriving DecidableEq, Repr

/-- What a run leaves behind: the exit code, the message on standard error, the
lines on standard output, the `CDReadLong` calls made (sector count, start
sector) and the contents of the output file when one was created. -/
structure Run where
  code : Nat
  stderr : Option Msg
  stdout : List Line
  calls : List (Nat × Nat)
  image : Option (List UInt8)
  deriving DecidableEq, Repr

/-- A failure exit: `return` with the code of the failure. -/
def Run.fail (e : Fail) (s : St) (image : Option (List UInt8)) : Run :=
  { code := e.code, stderr := some e.msg, stdout := s.shown, calls := s.calls, image := image }

/-- Lines 265 to 385 of `main`, on the input file `image`, with `drive` set by the
option `-d` and `outfile` by the option `-o`; `buf0` is the initial contents of
the buffer and `fuel` bounds the iterations of the extraction loop. -/
def main (b : Build) (drive : Bool) (outfile : Option Outfile) (image : File)
    (buf0 : Nat → UInt8) (fuel : Nat) : Option Run :=
  match locateCatalog b (St.init image buf0) with
  | (.error e, s) => some (Run.fail e s none)
  | (.ok bootfound, s) =>
    match parseCatalog b bootfound s with
    | (.error e, s) => some (Run.fail e s none)
    | (.ok entry, s) =>
      let r := resolveSize b drive entry s
      match outfile with
      | none =>
        some { code := 0, stderr := none, stdout := r.2.shown, calls := r.2.calls, image := none }
      | some o =>
        if o.creatable = false then some (Run.fail ⟨E_CREATE, .cannotCreate⟩ r.2 none)
        else
          match extractLoop b fuel r.1.imgsize r.1.offset r.2 ⟨[], o.room⟩ with
          | none => none
          | some e =>
            match e.err with
            | some f => some (Run.fail f e.st (some e.out.data))
            | none =>
              some { code := 0, stderr := none, stdout := e.st.shown ++ [.saved],
                     calls := e.st.calls, image := some e.out.data }

/-! ## Names used in the statements -/

/-- The state after the probe call of line 314: one sector asked for at the
start sector of the decoded entry, the catalog sector being in the buffer of `s`. -/
def probe (b : Build) (s : St) : St :=
  (CDReadLong b 1 (toDWORD (decodeEntry s).1.offset) (decodeEntry s).2).2

/-- The start sector after the adjustment of line 324, as the specification
writes it: the image sector plus the partition start (in 512-byte units) shifted
right by 2, kept in 32 bits. -/
def adjustedLBA (b : Build) (s : St) : Nat :=
  (rdDWORD s.buf 0x28 + rdDWORD (probe b s).buf 0x1c6 / 4) % 4294967296

/-- The state after the second probe call, line 325. -/
def reprobe (b : Build) (s : St) : St :=
  (CDReadLong b 1 (adjustedLBA b s) (probe b s)).2

/-- Lines 291 to 332 of `main` on the catalog sector in the buffer of `s`: the
entry is decoded, then `blksize`, the sector count and the start sector are set. -/
def entryFields (b : Build) (drive : Bool) (s : St) : Sizes × St :=
  sizeFields b drive (decodeEntry s).1 (decodeEntry s).2

/-- Lines 291 to 334 of `main` on the catalog sector in the buffer of `s`. -/
def entrySizes (b : Build) (drive : Bool) (s : St) : Sizes × St :=
  resolveSize b drive (decodeEntry s).1 (decodeEntry s).2

/-- The sector count of a BIOS parameter block as the specification reads it: the
16-bit value at offset 19, or the 32-bit value at offset 32 when that is 0. -/
def bpbCount (buf : Nat → UInt8) : Nat :=
  if rdWORD buf 19 = 0 then rdDWORD buf 32 else rdWORD buf 19

/-- The final block size and the final sector count of the specification
(section 4.4), as unsigned values, for the catalog sector in the buffer of `s`. -/
def specSizes (b : Build) (drive : Bool) (s : St) : Nat × Nat :=
  if rdBYTE s.buf 0x21 % 16 = 0 then (512, rdWORD s.buf 0x26)
  else if rdBYTE s.buf 0x21 % 16 = 4 then
    if drive then (rdWORD (reprobe b s).buf 11, bpbCount (reprobe b s).buf)
    else (512, rdDWORD (probe b s).buf 0x1ca)
  else (rdWORD (probe b s).buf 11, bpbCount (probe b s).buf)

/-- The reader of the specification (section 4.1) in its safe form, which
repositions to `StartSector << 11` before every read: `CDReadLong` without the
test `ofs != pos`. -/
def CDReadLongSeek (b : Build) (SectorCount StartSector : Nat) (s : St) : Bool × St :=
  let ofs : Int := toLong (toDWORD (StartSector <<< 11 : Nat))
  let fp := seek b ofs s.fp
  let req := toUINT b (SectorCount <<< 11 : Nat)
  let len := min req (s.fdin.size - fp)
  (len == req,
    { s with
      fp := fp + len
      pos := toLong (s.pos + len)
      buf := fun i => if i < len then s.fdin.byte (fp + i) else s.buf i
      calls := s.calls ++ [(SectorCount, StartSector)] })

/-- A sequence of requests (sector count, start sector) served in turn by the
reader `rd` from the state `s`: for each request, the result of the call and the
bytes it leaves in the first `count * 2048` bytes of the buffer. -/
def serve (rd : Nat → Nat → St → Bool × St) : List (Nat × Nat) → St → List (Bool × List UInt8)
  | [], _ => []
  | (c, a) :: rest, s =>
    (((rd c a s).1, bufBytes (rd c a s).2.buf (c * 2048))) :: serve rd rest (rd c a s).2

/-- The number of iterations the specification's claim gives for the extraction
of `T` bytes: one for `T = 0`, otherwise the full sectors in batches of `MAX`,
plus one for a partial last sector. -/
def iterations (b : Build) (T : Nat) : Nat :=
  if T = 0 then 1
  else (T / 2048 + MAX b - 1) / MAX b + (if 0 < T % 2048 then 1 else 0)

/-- Line 258: the size of the transfer buffer, `MAX << 11` bytes. -/
def bufferSize (b : Build) : Nat := toUINT b ((MAX b <<< 11 : Nat) : Int)

/-- The exit code that `main` returns with each message (lines 265 to 369). -/
def exitCodeOf : Msg → Nat
  | .readError => E_ABORTED
  | .notElTorito => E_NOCD
  | .invalidCatalog => E_NOCD
  | .cannotCreate => E_CREATE
  | .writeError => E_ABORTED

/-- The platform names of the specification (section 4.3), by platform id. -/
def platformName (id : Nat) : String :=
  if id = 0 then "80x86" else if id = 1 then "Power PC" else if id = 2 then "Mac"
  else "unknown"

/-- The emulation types of the specification (section 4.3), by the low 4 bits of
the emulation byte. -/
def emulationName (nibble : Nat) : String :=
  if nibble = 0 then "no emulation" else if nibble = 1 then "1.2 meg floppy"
  else if nibble = 2 then "1.44 meg floppy" else if nibble = 3 then "2.88 meg floppy"
  else if nibble = 4 then "hard disk" else "unknown"

/-- Two states of runs on two sources that are identical except for the two
bytes at file offsets `X` and `X + 1` (the load segment field of the catalog
sector), the catalog sector being in the buffer: same file pointer, same tracked
position, same file size, same file bytes except at `X` and `X + 1`, same buffer
bytes except at 0x22 and 0x23. -/
def sameUpToLoadSegment (X : Nat) (s t : St) : Prop :=
  s.fp = t.fp ∧ s.pos = t.pos ∧ s.fdin.size = t.fdin.size ∧
    (∀ i, i ≠ X → i ≠ X + 1 → s.fdin.byte i = t.fdin.byte i) ∧
    (∀ i, i ≠ 0x22 → i ≠ 0x23 → s.buf i = t.buf i)

/-- The call for one sector at `a` from the state `s` is complete (2048 bytes are
transferred) and the bytes it reads do not include the file offsets `X` and
`X + 1`. -/
def cleanRead (b : Build) (X a : Nat) (s : St) : Prop :=
  (CDReadLong b 1 a s).1 = true ∧
    (X + 2 + 2048 ≤ (CDReadLong b 1 a s).2.fp ∨ (CDReadLong b 1 a s).2.fp ≤ X)

/-! ## Concrete inputs -/

/-- The file of `size` bytes that holds the given runs of bytes at the given
offsets and zero bytes elsewhere. -/
def File.ofRuns (size : Nat) (runs : List (Nat × List UInt8)) : File :=
  { size := size
    byte := fun i =>
      match runs.find? (fun r => decide (r.1 ≤ i ∧ i < r.1 + r.2.length)) with
      | some r => r.2.getD (i - r.1) 0
      | none => 0 }

/-- A buffer of zero bytes. -/
def zeroBuf : Nat → UInt8 := fun _ => 0

/-- A small El Torito image of 0x16 sectors.  Sector 0x11 is the volume
descriptor (catalog at 0x12); sector 0x12 is the catalog, with the emulation byte
`emu`, 4 declared sectors and the image at sector 0x13; sector 0x13 starts with
the bytes 7, 8, 9 and holds a parameter block (512 bytes per sector, 3 sectors)
and a partition entry (start 4, 8 sectors); sector 0x14 holds a parameter block
with 512 bytes per sector, no 16-bit total and a large count of 2880. -/
def demoImage (emu : UInt8) : File :=
  File.ofRuns (0x16 * 2048)
    [(0x8801, signature ++ [0]), (0x8847, [0x12, 0, 0, 0]),
     (0x901e, [0x55, 0xAA, 0x88, emu]), (0x9026, [4, 0, 0x13, 0, 0, 0]),
     (0x9800, [7, 8, 9]), (0x9800 + 11, [0, 2]), (0x9800 + 19, [3, 0]),
     (0x9800 + 0x1c6, [4, 0, 0, 0, 8, 0, 0, 0]),
     (0xA000 + 11, [0, 2]), (0xA000 + 32, [0x40, 0x0B, 0, 0])]

/-- The state of a run on `image`, whose catalog is at sector 0x12, once the
catalog sector is in the buffer. -/
def catalogOf (image : File) : St :=
  { fdin := image, fp := 0x9800, pos := 0x1000,
    buf := fun i => image.byte (0x9000 + i),
    calls := [(1, 0x11), (1, 0x12)], shown := [] }

/-- The state of a run on `demoImage emu` once the catalog sector is in the
buffer. -/
def demoCatalog (emu : UInt8) : St := catalogOf (demoImage emu)

/-- An image of 0x14 sectors with its catalog at sector 0x12: emulation byte
`emu`, image sector given by the four bytes `lba`, and the given runs of bytes
elsewhere. -/
def sizedImage (emu : UInt8) (lba : List UInt8) (runs : List (Nat × List UInt8)) : File :=
  File.ofRuns (0x14 * 2048)
    ([(0x8801, signature ++ [0]), (0x8847, [0x12, 0, 0, 0]),
      (0x901e, [0x55, 0xAA, 0x88, emu]), (0x9028, lba)] ++ runs)

/-- A floppy entry whose parameter block declares 512 bytes per sector, no 16-bit
total and a large count of 0xFFFFFFFF. -/
def cexFloppy : St :=
  catalogOf (sizedImage 2 [0x13, 0, 0, 0]
    [(0x9800 + 11, [0, 2]), (0x9800 + 32, [0xFF, 0xFF, 0xFF, 0xFF])])

/-- A hard disk entry whose first sector has 0xFFFFFFFE at offset 0x1ca. -/
def cexKeep : St :=
  catalogOf (sizedImage 4 [0x13, 0, 0, 0] [(0x9800 + 0x1ca, [0xFE, 0xFF, 0xFF, 0xFF])])

/-- A hard disk entry whose image sector is 0xFFFFFFFF; the value 4 is at offset
0x1c6 of the catalog sector and of the sector that follows it. -/
def cexStrip : St :=
  catalogOf (sizedImage 4 [0xFF, 0xFF, 0xFF, 0xFF]
    [(0x9000 + 0x1c6, [4, 0, 0, 0]), (0x9800 + 0x1c6, [4, 0, 0, 0])])

/-- A hard disk entry whose first sector declares 0x800000 sectors (4 GiB). -/
def cexBig : St :=
  catalogOf (sizedImage 4 [0x13, 0, 0, 0] [(0x9800 + 0x1ca, [0, 0, 0x80, 0])])

/-- A floppy entry whose parameter block declares 1 byte per sector, no 16-bit
total and a large count of 0x80000000. -/
def cexNeg : St :=
  catalogOf (sizedImage 1 [0x13, 0, 0, 0]
    [(0x9800 + 11, [1, 0]), (0x9800 + 32, [0, 0, 0, 0x80])])

/-- The image `demoImage emu` cut off right after its catalog sector: the boot
image, at sector 0x13, is missing. -/
def truncatedImage (emu : UInt8) : File := { demoImage emu with size := 0x9800 }

/-- A file of 4 GiB and one sector: bytes 1 below offset 2^32, bytes 2 from there
on. -/
def wrapImage : File :=
  { size := 4294967296 + 2048, byte := fun i => if i < 4294967296 then 1 else 2 }

/-- A state of a run on `wrapImage`, two sectors having been read. -/
def wrapState : St :=
  { fdin := wrapImage, fp := 0x9800, pos := 0x1000, buf := zeroBuf,
    calls := [(1, 0x11), (1, 0x12)], shown := [] }

/-- An image whose floppy boot image is at sector 3: volume descriptor at 0x11,
catalog at 0x12 (emulation byte 2, image sector 3); sector 3 starts with the
bytes 7, 8, 9 and declares 3 sectors of 512 bytes; sector 4 starts with the
bytes 4, 4, 4. -/
def lowImage : File :=
  File.ofRuns (0x14 * 2048)
    [(0x8801, signature ++ [0]), (0x8847, [0x12, 0, 0, 0]),
     (0x901e, [0x55, 0xAA, 0x88, 2]), (0x9026, [4, 0, 3, 0, 0, 0]),
     (0x1800, [7, 8, 9]), (0x1800 + 11, [0, 2]), (0x1800 + 19, [3, 0]),
     (0x2000, [4, 4, 4])]

/-- An image with the El Torito signature whose catalog sector, 0x12, is all
zero: the key bytes are missing. -/
def noCatalogImage : File :=
  File.ofRuns (0x14 * 2048) [(0x8801, signature ++ [0]), (0x8847, [0x12, 0, 0, 0])]

/-- An image whose floppy entry names the catalog sector itself, 0x12, as the
image sector; the catalog sector has the bytes 0, 2 at offset 11 and the two
bytes `seg` in its load segment field, at offset 0x22. -/
def selfProbeImage (seg : List UInt8) : File :=
  sizedImage 2 [0x12, 0, 0, 0] [(0x9000 + 11, [0, 2]), (0x9022, seg)]

/-- The state `s` of a run on a source whose byte at file offset `X`, the low
byte of the load segment field, is `v` instead: that byte differs in the file
and, at offset 0x22, in the buffer. -/
def withLoadSegment (v : UInt8) (X : Nat) (s : St) : St :=
  { s with
    fdin := { s.fdin with byte := fun i => if i = X then v else s.fdin.byte i }
    buf := fun i => if i = 0x22 then v else s.buf i }

/-! ## Machine integers: basic facts -/

theorem toLong_of_range (x : Int) (h1 : -2147483648 ≤ x) (h2 : x < 2147483648) :
    toLong x = x := by
  unfold toLong; omega

theorem toDWORD_natCast (n : Nat) (h : n < 4294967296) : toDWORD (n : Int) = n := by
  unfold toDWORD; omega

theorem toDWORD_toLong (x : Int) : toDWORD (toLong x) = toDWORD x := by
  unfold toDWORD toLong; omega

theorem toDWORD_lt (x : Int) : toDWORD x < 4294967296 := by
  unfold toDWORD; omega

theorem rdBYTE_lt (buf : Nat → UInt8) (o : Nat) : rdBYTE buf o < 256 :=
  UInt8.toNat_lt_size _

theorem rdWORD_lt (buf : Nat → UInt8) (o : Nat) : rdWORD buf o < 65536 := by
  have h1 := rdBYTE_lt buf o
  have h2 := rdBYTE_lt buf (o + 1)
  unfold rdWORD; omega

theorem rdDWORD_lt (buf : Nat → UInt8) (o : Nat) : rdDWORD buf o < 4294967296 := by
  have h1 := rdWORD_lt buf o
  have h2 := rdWORD_lt buf (o + 2)
  unfold rdDWORD; omega

theorem toUINT_sector (b : Build) : toUINT b ((1 <<< 11 : Nat) : Int) = 2048 := by
  cases b <;> decide

/-! ## The string comparison -/

theorem strcmp_eq_zero_iff (buf : Nat → UInt8) (lit : List UInt8)
    (hlit : ∀ c ∈ lit, c ≠ 0) (o : Nat) :
    strcmp buf o lit = 0 ↔
      (List.range (lit.length + 1)).map (fun i => buf (o + i)) = lit ++ [0] := by
  induction lit generalizing o with
  | nil =>
    have hr : List.range 1 = [0] := rfl
    simp only [strcmp, List.length_nil, Nat.zero_add, hr, List.map_cons,
      List.map_nil, Nat.add_zero, List.nil_append, List.cons.injEq, and_true]
    constructor
    · intro h
      apply UInt8.ext_iff.mpr
      have : (buf o).toNat = 0 := by exact_mod_cast h
      simpa using this
    · intro h
      rw [h]; rfl
  | cons c cs ih =>
    have hc : c ≠ 0 := hlit c (List.mem_cons_self _ _)
    have hcs : ∀ d ∈ cs, d ≠ 0 := fun d hd => hlit d (List.mem_cons_of_mem _ hd)
    rw [List.length_cons, List.range_succ_eq_map, List.map_cons, List.map_map, List.cons_append,
      List.cons.injEq, Nat.add_zero]
    have hshift : (fun i => buf (o + i)) ∘ Nat.succ = fun i => buf (o + 1 + i) := by
      funext i
      simp only [Function.comp_apply, Nat.succ_eq_add_one]
      congr 1
      omega
    rw [hshift, ← ih hcs (o + 1)]
    by_cases h : buf o = c
    · simp [strcmp, h, hc]
    · have hne : (buf o).toNat ≠ c.toNat := fun e => h (UInt8.ext_iff.mpr e)
      have : ((buf o).toNat : Int) - (c.toNat : Int) ≠ 0 := by omega
      simp [strcmp, h, this]

/-! ## The reader -/

theorem ofs_of_small (start : Nat) (h : start * 2048 < 2147483648) :
    toLong (toDWORD ((start <<< 11 : Nat) : Int)) = ((start * 2048 : Nat) : Int) := by
  rw [Nat.shiftLeft_eq]
  have : start * 2 ^ 11 = start * 2048 := by norm_num
  rw [this]
  unfold toLong toDWORD
  omega

theorem req_of_small (b : Build) (count : Nat) (h : count ≤ MAX b) :
    toUINT b ((count <<< 11 : Nat) : Int) = count * 2048 := by
  rw [Nat.shiftLeft_eq]
  have : count * 2 ^ 11 = count * 2048 := by norm_num
  rw [this]
  cases b <;> simp only [MAX] at h <;> simp only [toUINT, uintBits] <;> omega

theorem seek_of_nonneg (b : Build) (n fp : Nat) (h : n < 4294967296) :
    seek b (n : Int) fp = n := by
  cases b
  · simp [seek]
  · simp only [seek]
    exact toDWORD_natCast n h

/-- A call that repositions, inside the first 2 GiB of a file that holds the
sectors asked for: it succeeds and the buffer receives these sectors. -/
theorem CDReadLong_reposition (b : Build) (count start : Nat) (s : St)
    (hcount : count ≤ MAX b)
    (hofs : start * 2048 < 2147483648)
    (hpos : s.pos ≠ ((start * 2048 : Nat) : Int))
    (hfile : (start + count) * 2048 ≤ s.fdin.size) :
    CDReadLong b count start s =
      (true,
        { s with
          fp := (start + count) * 2048
          pos := toLong (s.pos + ((count * 2048 : Nat) : Int))
          buf := fun i => if i < count * 2048 then s.fdin.byte (start * 2048 + i) else s.buf i
          calls := s.calls ++ [(count, start)] }) := by
  have hne : ((start * 2048 : Nat) : Int) ≠ s.pos := fun e => hpos e.symm
  have hlen : min (count * 2048) (s.fdin.size - start * 2048) = count * 2048 := by
    apply Nat.min_eq_left
    omega
  have hfp : start * 2048 + count * 2048 = (start + count) * 2048 := by omega
  unfold CDReadLong
  dsimp only
  rw [ofs_of_small start hofs, req_of_small b count hcount, if_pos hne,
    seek_of_nonneg b (start * 2048) s.fp (by omega), hlen, hfp]
  simp only [beq_self_eq_true]

/-- Every call is logged, whatever it reads. -/
theorem CDReadLong_calls (b : Build) (count start : Nat) (s : St) :
    (CDReadLong b count start s).2.calls = s.calls ++ [(count, start)] := rfl

/-- A call leaves the output log and the file alone. -/
theorem CDReadLong_shown (b : Build) (count start : Nat) (s : St) :
    (CDReadLong b count start s).2.shown = s.shown := rfl

theorem CDReadLong_fdin (b : Build) (count start : Nat) (s : St) :
    (CDReadLong b count start s).2.fdin = s.fdin := rfl

theorem rdWORD_congr {g h : Nat → UInt8} {o p : Nat}
    (e : ∀ i, i < 2 → g (o + i) = h (p + i)) : rdWORD g o = rdWORD h p := by
  have e0 := e 0 (by omega)
  have e1 := e 1 (by omega)
  simp only [Nat.add_zero] at e0
  simp only [rdWORD, rdBYTE, e0, e1]

theorem rdDWORD_congr {g h : Nat → UInt8} {o p : Nat}
    (e : ∀ i, i < 4 → g (o + i) = h (p + i)) : rdDWORD g o = rdDWORD h p := by
  have h0 : rdWORD g o = rdWORD h p := rdWORD_congr (fun i hi => e i (by omega))
  have h2 : rdWORD g (o + 2) = rdWORD h (p + 2) :=
    rdWORD_congr (fun i hi => by
      have := e (2 + i) (by omega)
      simpa only [Nat.add_assoc] using this)
  simp only [rdDWORD, h0, h2]

/-! ## The volume descriptor -/

theorem signature_nonzero : ∀ c ∈ signature, c ≠ 0 := by decide

/-- The first call of a run, on an image that holds sector 0x11. -/
theorem CDReadLong_descriptor (b : Build) (image : File) (buf0 : Nat → UInt8)
    (hsize : 0x9000 ≤ image.size) :
    CDReadLong b 1 0x11 (St.init image buf0) =
      (true,
        { fdin := image, fp := 0x9000, pos := 2048,
          buf := fun i => if i < 2048 then image.byte (0x8800 + i) else buf0 i,
          calls := [(1, 0x11)], shown := [] }) := by
  have h := CDReadLong_reposition b 1 0x11 (St.init image buf0)
    (by cases b <;> decide) (by decide) (by simp [St.init]) (by simpa [St.init] using hsize)
  rw [h]
  simp [St.init, toLong]

/-- The comparison of line 271 on the buffer filled from sector 0x11. -/
theorem strcmp_descriptor (image : File) (buf0 : Nat → UInt8) :
    strcmp (fun i => if i < 2048 then image.byte (0x8800 + i) else buf0 i) 1 signature = 0 ↔
      image.bytes 0x8801 30 = signature ++ [0] := by
  rw [strcmp_eq_zero_iff _ _ signature_nonzero]
  have hlen : signature.length + 1 = 30 := rfl
  rw [hlen]
  have hmap : (List.range 30).map
      (fun i => (fun i => if i < 2048 then image.byte (0x8800 + i) else buf0 i) (1 + i)) =
      image.bytes 0x8801 30 := by
    unfold File.bytes
    apply List.map_congr_left
    intro i hi
    have hi30 : i < 30 := List.mem_range.mp hi
    have h1 : 1 + i < 2048 := by omega
    have h2 : 0x8800 + (1 + i) = 0x8801 + i := by omega
    simp only [h1, if_true, h2]
  rw [hmap]

/-- C6: on an image that holds sector 0x11 with the El Torito signature in its
bytes [1,31), the locator makes exactly one call, for one sector at 0x11, and
returns the little-endian 32-bit value at byte offset 0x47 of that sector (file
offset 0x8847) as the boot catalog sector. -/
theorem locateCatalog_returns_catalog_sector (b : Build) (image : File) (buf0 : Nat → UInt8)
    (hsize : 0x9000 ≤ image.size)
    (hsig : image.bytes 0x8801 30 = signature ++ [0]) :
    (locateCatalog b (St.init image buf0)).1 = .ok (rdDWORD image.byte 0x8847) ∧
      (locateCatalog b (St.init image buf0)).2.calls = [(1, 0x11)] := by
  have hcmp := (strcmp_descriptor image buf0).mpr hsig
  have hval : rdDWORD (fun i => if i < 2048 then image.byte (0x8800 + i) else buf0 i) 0x47 =
      rdDWORD image.byte 0x8847 := by
    apply rdDWORD_congr
    intro i hi
    have h1 : 0x47 + i < 2048 := by omega
    have h2 : 0x8800 + (0x47 + i) = 0x8847 + i := by omega
    simp only [h1, if_true, h2]
  unfold locateCatalog
  rw [CDReadLong_descriptor b image buf0 hsize]
  simp only [Bool.not_true, Bool.false_eq_true, if_false, hcmp, ne_eq, not_true_eq_false, hval,
    and_self]

/-- C7: on an image that holds sector 0x11, the locator fails with the message
"is not EL TORITO" exactly when the 30 bytes at offsets [1,31) of that sector
differ from the 29 characters of the signature followed by a zero byte; the run
then ends with code `E_NOCD` after the single call for sector 0x11, no catalog
sector being read. -/
theorem locateCatalog_not_el_torito_iff (b : Build) (drive : Bool) (outfile : Option Outfile)
    (image : File) (buf0 : Nat → UInt8) (fuel : Nat)
    (hsize : 0x9000 ≤ image.size) :
    ((locateCatalog b (St.init image buf0)).1 = .error ⟨E_NOCD, .notElTorito⟩ ↔
        image.bytes 0x8801 30 ≠ signature ++ [0]) ∧
      (image.bytes 0x8801 30 ≠ signature ++ [0] →
        main b drive outfile image buf0 fuel =
          some { code := E_NOCD, stderr := some .notElTorito, stdout := [],
                 calls := [(1, 0x11)], image := none }) := by
  have hiff := strcmp_descriptor image buf0
  constructor
  · unfold locateCatalog
    rw [CDReadLong_descriptor b image buf0 hsize]
    by_cases hc : strcmp (fun i => if i < 2048 then image.byte (0x8800 + i) else buf0 i) 1
        signature = 0
    · have hs := hiff.mp hc
      simp [hc, hs]
    · have hs : image.bytes 0x8801 30 ≠ signature ++ [0] := fun e => hc (hiff.mpr e)
      simp [hc, hs]
  · intro hs
    have hc : strcmp (fun i => if i < 2048 then image.byte (0x8800 + i) else buf0 i) 1
        signature ≠ 0 := fun e => hs (hiff.mp e)
    unfold main locateCatalog
    rw [CDReadLong_descriptor b image buf0 hsize]
    simp [hc, Run.fail]

theorem locateCatalog_returns_catalog_sector_witness :
    0x9000 ≤ (demoImage 2).size ∧ (demoImage 2).bytes 0x8801 30 = signature ++ [0] ∧
      (locateCatalog .win32 (St.init (demoImage 2) zeroBuf)).1 = .ok 0x12 :=
  ⟨by decide, by decide,
    (locateCatalog_returns_catalog_sector .win32 (demoImage 2) zeroBuf (by decide)
      (by decide)).1⟩

theorem locateCatalog_not_el_torito_iff_witness :
    0x9000 ≤ (File.ofRuns 0x9000 []).size ∧
      main .dos false none (File.ofRuns 0x9000 []) zeroBuf 0 =
        some { code := E_NOCD, stderr := some .notElTorito, stdout := [],
               calls := [(1, 0x11)], image := none } :=
  ⟨by decide,
    (locateCatalog_not_el_torito_iff .dos false none (File.ofRuns 0x9000 []) zeroBuf 0
      (by decide)).2 (by decide)⟩

/-! ## The boot catalog -/

/-- C8: once the catalog sector has been read, parsing fails with the message
"has an invalid boot catalog" exactly when the bytes of the buffer at 0x1e and
0x1f are not 0x55 and 0xAA, whatever the rest of the sector holds; with these two
bytes in place the entry is decoded, the checksum field playing no part. -/
theorem parseCatalog_invalid_iff (b : Build) (bootfound : Nat) (s : St)
    (hread : (CDReadLong b 1 bootfound s).1 = true) :
    ((parseCatalog b bootfound s).1 = .error ⟨E_NOCD, .invalidCatalog⟩ ↔
        ¬ ((CDReadLong b 1 bootfound s).2.buf 0x1e = 0x55 ∧
            (CDReadLong b 1 bootfound s).2.buf 0x1f = 0xAA)) ∧
      ((CDReadLong b 1 bootfound s).2.buf 0x1e = 0x55 ∧
          (CDReadLong b 1 bootfound s).2.buf 0x1f = 0xAA →
        (parseCatalog b bootfound s).1 = .ok (decodeEntry (CDReadLong b 1 bootfound s).2).1) := by
  unfold parseCatalog
  simp only [hread, Bool.not_true, Bool.false_eq_true, if_false]
  by_cases hk : (CDReadLong b 1 bootfound s).2.buf 0x1e ≠ 0x55 ∨
      (CDReadLong b 1 bootfound s).2.buf 0x1f ≠ 0xAA
  · rw [if_pos hk]
    constructor
    · simp only [true_iff]
      rintro ⟨h1, h2⟩
      rcases hk with hk | hk
      · exact hk h1
      · exact hk h2
    · rintro ⟨h1, h2⟩
      rcases hk with hk | hk
      · exact absurd h1 hk
      · exact absurd h2 hk
  · rw [if_neg hk]
    have hk2 : (CDReadLong b 1 bootfound s).2.buf 0x1e = 0x55 ∧
        (CDReadLong b 1 bootfound s).2.buf 0x1f = 0xAA := by
      constructor
      · by_contra h; exact hk (Or.inl h)
      · by_contra h; exact hk (Or.inr h)
    simp [hk2]

theorem parseCatalog_invalid_iff_witness :
    (CDReadLong .win32 1 0x13 (locateCatalog .win32 (St.init (demoImage 2) zeroBuf)).2).1 = true ∧
      (parseCatalog .win32 0x13 (locateCatalog .win32 (St.init (demoImage 2) zeroBuf)).2).1 =
        .error ⟨E_NOCD, .invalidCatalog⟩ :=
  ⟨by decide,
    (parseCatalog_invalid_iff .win32 0x13 (locateCatalog .win32 (St.init (demoImage 2) zeroBuf)).2
      (by decide)).1.mpr (by decide)⟩

/-! ## The size of the image -/

theorem toLong_mul_toLong (x k : Int) : toLong (toLong x * k) = toLong (x * k) := by
  have hx : toLong x = x - 4294967296 * ((x + 2147483648) / 4294967296) := by
    unfold toLong; omega
  rw [hx, sub_mul, mul_assoc]
  generalize x * k = y
  generalize (x + 2147483648) / 4294967296 * k = t
  unfold toLong
  omega

theorem toLong_natCast (n : Nat) (h : n < 2147483648) : toLong (n : Int) = n := by
  unfold toLong; omega

theorem decodeEntry_type (s : St) : (decodeEntry s).1.type = rdBYTE s.buf 0x21 % 16 := by
  show rdBYTE s.buf 0x21 &&& 15 = rdBYTE s.buf 0x21 % 16
  exact Nat.and_pow_two_sub_one_eq_mod _ 4

theorem decodeEntry_startLBA (s : St) :
    toDWORD (decodeEntry s).1.offset = rdDWORD s.buf 0x28 := by
  show toDWORD (toLong (rdDWORD s.buf 0x28 : Int)) = rdDWORD s.buf 0x28
  rw [toDWORD_toLong, toDWORD_natCast _ (rdDWORD_lt _ _)]

/-- The exact product of two unsigned fields, when `imgsize *= blksize` does not
overflow. -/
theorem total_of_small (c k : Nat) (h : c * k < 2147483648) :
    toLong ((c : Int) * (k : Int)) = ((c * k : Nat) : Int) := by
  have : ((c : Int) * (k : Int)) = ((c * k : Nat) : Int) := by push_cast; rfl
  rw [this]
  exact toLong_natCast _ h

theorem sizeFields_none (b : Build) (drive : Bool) (s : St)
    (ht : rdBYTE s.buf 0x21 % 16 = 0) :
    sizeFields b drive (decodeEntry s).1 (decodeEntry s).2 =
      (⟨0x200, (decodeEntry s).1.imgsize, (decodeEntry s).1.offset⟩, (decodeEntry s).2) := by
  have ht2 : (decodeEntry s).1.type = 0 := by rw [decodeEntry_type]; exact ht
  unfold sizeFields
  rw [if_pos ht2]

theorem none_total (b : Build) (drive : Bool) (s : St)
    (ht : rdBYTE s.buf 0x21 % 16 = 0) :
    (resolveSize b drive (decodeEntry s).1 (decodeEntry s).2).1.imgsize =
      ((512 * rdWORD s.buf 0x26 : Nat) : Int) := by
  have hw := rdWORD_lt s.buf 0x26
  simp only [resolveSize, sizeFields_none b drive s ht]
  show toLong ((rdWORD s.buf 0x26 : Int) * 512) = _
  unfold toLong
  push_cast
  omega

/-- C5: with emulation type none (low nibble of the byte at 0x21 equal to 0) the
block size is 512, the total byte length is 512 times the 16-bit value at
catalog offset 0x26, the start sector is the 32-bit value at 0x28, and size
resolution makes no call to the reader. -/
theorem resolveSize_no_emulation (b : Build) (drive : Bool) (s : St)
    (ht : rdBYTE s.buf 0x21 % 16 = 0) :
    (resolveSize b drive (decodeEntry s).1 (decodeEntry s).2).1.blksize = 512 ∧
      (resolveSize b drive (decodeEntry s).1 (decodeEntry s).2).1.imgsize =
        ((512 * rdWORD s.buf 0x26 : Nat) : Int) ∧
      toDWORD (resolveSize b drive (decodeEntry s).1 (decodeEntry s).2).1.offset =
        rdDWORD s.buf 0x28 ∧
      (resolveSize b drive (decodeEntry s).1 (decodeEntry s).2).2.calls = s.calls := by
  have hsf := sizeFields_none b drive s ht
  refine ⟨?_, none_total b drive s ht, ?_, ?_⟩
  · simp only [resolveSize, hsf]
  · simp only [resolveSize, hsf]
    exact decodeEntry_startLBA s
  · simp only [resolveSize, hsf]
    rfl

theorem resolveSize_no_emulation_witness :
    rdBYTE (demoCatalog 0).buf 0x21 % 16 = 0 ∧
      (resolveSize .dos true (decodeEntry (demoCatalog 0)).1
        (decodeEntry (demoCatalog 0)).2).1.imgsize = ((512 * 4 : Nat) : Int) :=
  ⟨by decide, (resolveSize_no_emulation .dos true (demoCatalog 0) (by decide)).2.1⟩

theorem sizeFields_keep (b : Build) (s : St) (ht : rdBYTE s.buf 0x21 % 16 = 4) :
    entryFields b false s =
      (⟨0x200, toLong (rdDWORD (probe b s).buf 0x1ca), (decodeEntry s).1.offset⟩, probe b s) := by
  have ht2 : (decodeEntry s).1.type = 4 := by rw [decodeEntry_type]; exact ht
  unfold entryFields sizeFields probe
  simp [ht2]

theorem sizeFields_bpb (b : Build) (drive : Bool) (s : St)
    (h0 : rdBYTE s.buf 0x21 % 16 ≠ 0) (h4 : rdBYTE s.buf 0x21 % 16 ≠ 4) :
    entryFields b drive s =
      (⟨(rdWORD (probe b s).buf 11 : Int),
        if (rdWORD (probe b s).buf 19 : Int) = 0 then toLong (rdDWORD (probe b s).buf 32)
        else (rdWORD (probe b s).buf 19 : Int),
        (decodeEntry s).1.offset⟩, probe b s) := by
  have ht0 : (decodeEntry s).1.type ≠ 0 := by rw [decodeEntry_type]; exact h0
  have ht4 : (decodeEntry s).1.type ≠ 4 := by rw [decodeEntry_type]; exact h4
  unfold entryFields sizeFields probe
  simp [ht0, ht4]

theorem adjusted_offset (b : Build) (s : St) :
    toDWORD (toLong ((decodeEntry s).1.offset +
      ((rdDWORD (probe b s).buf 0x1c6 >>> 2 : Nat) : Int))) = adjustedLBA b s := by
  have h1 := rdDWORD_lt s.buf 0x28
  have h2 := rdDWORD_lt (probe b s).buf 0x1c6
  have hoff : (decodeEntry s).1.offset = toLong (rdDWORD s.buf 0x28 : Int) := rfl
  rw [hoff, Nat.shiftRight_eq_div_pow]
  have : (2 : Nat) ^ 2 = 4 := by norm_num
  rw [this]
  unfold adjustedLBA toDWORD toLong
  omega

theorem sizeFields_strip (b : Build) (s : St) (ht : rdBYTE s.buf 0x21 % 16 = 4) :
    entryFields b true s =
      (⟨(rdWORD (reprobe b s).buf 11 : Int),
        if (rdWORD (reprobe b s).buf 19 : Int) = 0 then toLong (rdDWORD (reprobe b s).buf 32)
        else (rdWORD (reprobe b s).buf 19 : Int),
        toLong ((decodeEntry s).1.offset +
          ((rdDWORD (probe b s).buf 0x1c6 >>> 2 : Nat) : Int))⟩, reprobe b s) := by
  have ht2 : (decodeEntry s).1.type = 4 := by rw [decodeEntry_type]; exact ht
  have hadj := adjusted_offset b s
  unfold reprobe
  rw [← hadj]
  unfold entryFields sizeFields probe
  simp [ht2]

/-- The 32 bits of the sector count taken from a parameter block. -/
theorem bpb_count_bits (buf : Nat → UInt8) :
    toDWORD (if (rdWORD buf 19 : Int) = 0 then toLong (rdDWORD buf 32)
      else (rdWORD buf 19 : Int)) = bpbCount buf := by
  have h1 := rdWORD_lt buf 19
  have h2 := rdDWORD_lt buf 32
  unfold bpbCount
  by_cases h : rdWORD buf 19 = 0
  · have hi : (rdWORD buf 19 : Int) = 0 := by exact_mod_cast h
    rw [if_pos hi, if_pos h, toDWORD_toLong, toDWORD_natCast _ h2]
  · have hi : ¬ (rdWORD buf 19 : Int) = 0 := by exact_mod_cast h
    rw [if_neg hi, if_neg h, toDWORD_natCast _ (by omega)]

/-- The product computed by line 333 from a parameter block. -/
theorem bpb_total (buf : Nat → UInt8) :
    toLong ((if (rdWORD buf 19 : Int) = 0 then toLong (rdDWORD buf 32)
      else (rdWORD buf 19 : Int)) * (rdWORD buf 11 : Int)) =
      toLong (((bpbCount buf * rdWORD buf 11 : Nat) : Int)) := by
  unfold bpbCount
  by_cases h : rdWORD buf 19 = 0
  · have hi : (rdWORD buf 19 : Int) = 0 := by exact_mod_cast h
    rw [if_pos hi, if_pos h, toLong_mul_toLong]
    push_cast
    rfl
  · have hi : ¬ (rdWORD buf 19 : Int) = 0 := by exact_mod_cast h
    rw [if_neg hi, if_neg h]
    push_cast
    rfl

theorem probe_calls (b : Build) (s : St) :
    (probe b s).calls = s.calls ++ [(1, rdDWORD s.buf 0x28)] := by
  unfold probe
  rw [CDReadLong_calls, decodeEntry_startLBA]
  rfl

theorem reprobe_calls (b : Build) (s : St) :
    (reprobe b s).calls = s.calls ++ [(1, rdDWORD s.buf 0x28), (1, adjustedLBA b s)] := by
  unfold reprobe
  rw [CDReadLong_calls, probe_calls]
  simp

theorem entrySizes_fst (b : Build) (drive : Bool) (s : St) :
    (entrySizes b drive s).1 =
      ⟨(entryFields b drive s).1.blksize,
        toLong ((entryFields b drive s).1.imgsize * (entryFields b drive s).1.blksize),
        (entryFields b drive s).1.offset⟩ := rfl

theorem entrySizes_calls (b : Build) (drive : Bool) (s : St) :
    (entrySizes b drive s).2.calls = (entryFields b drive s).2.calls := rfl

/-- C2 (as amended): for a floppy emulation entry (low nibble of the byte at 0x21
equal to 1, 2 or 3) exactly one probe call is made, for one sector at the image
sector; the block size is the 16-bit value at offset 11 of the buffer after that
call, the 32 bits of the sector count are the 16-bit value at offset 19 or, when
that is 0, the 32-bit value at offset 32; the total byte length is their product
reduced to a signed 32-bit `long`, which is the exact product whenever that is
below 2^31.  With 512 bytes per sector, a 16-bit total of 0 and a large count of
2880 the total is 1474560. -/
theorem entrySizes_floppy (b : Build) (drive : Bool) (s : St)
    (ht : rdBYTE s.buf 0x21 % 16 = 1 ∨ rdBYTE s.buf 0x21 % 16 = 2 ∨
      rdBYTE s.buf 0x21 % 16 = 3) :
    (entryFields b drive s).2.calls = s.calls ++ [(1, rdDWORD s.buf 0x28)] ∧
      (entryFields b drive s).1.blksize = (rdWORD (probe b s).buf 11 : Int) ∧
      toDWORD (entryFields b drive s).1.imgsize = bpbCount (probe b s).buf ∧
      (entrySizes b drive s).1.imgsize =
        toLong ((bpbCount (probe b s).buf * rdWORD (probe b s).buf 11 : Nat) : Int) ∧
      (bpbCount (probe b s).buf * rdWORD (probe b s).buf 11 < 2147483648 →
        (entrySizes b drive s).1.imgsize =
          ((bpbCount (probe b s).buf * rdWORD (probe b s).buf 11 : Nat) : Int)) ∧
      (rdWORD (probe b s).buf 11 = 512 → rdWORD (probe b s).buf 19 = 0 →
        rdDWORD (probe b s).buf 32 = 2880 → (entrySizes b drive s).1.imgsize = 1474560) := by
  have h0 : rdBYTE s.buf 0x21 % 16 ≠ 0 := by omega
  have h4 : rdBYTE s.buf 0x21 % 16 ≠ 4 := by omega
  have hf := sizeFields_bpb b drive s h0 h4
  have htot : (entrySizes b drive s).1.imgsize =
      toLong ((bpbCount (probe b s).buf * rdWORD (probe b s).buf 11 : Nat) : Int) := by
    rw [entrySizes_fst, hf]
    exact bpb_total _
  refine ⟨?_, ?_, ?_, htot, ?_, ?_⟩
  · rw [hf]; exact probe_calls b s
  · rw [hf]
  · rw [hf]; exact bpb_count_bits _
  · intro hlt
    rw [htot, toLong_natCast _ hlt]
  · intro h11 h19 h32
    rw [htot]
    unfold bpbCount
    rw [if_pos h19, h32, h11]
    decide

theorem keep_total (b : Build) (s : St) (ht : rdBYTE s.buf 0x21 % 16 = 4) :
    (entrySizes b false s).1.imgsize =
      toLong ((512 * rdDWORD (probe b s).buf 0x1ca : Nat) : Int) := by
  rw [entrySizes_fst, sizeFields_keep b s ht]
  show toLong (toLong (rdDWORD (probe b s).buf 0x1ca : Int) * 512) = _
  rw [toLong_mul_toLong]
  push_cast
  rw [mul_comm]

/-- C4 (as amended): for a hard disk emulation entry (low nibble 4) without MBR
stripping exactly one probe call is made, for one sector at the image sector;
the block size is 512, the 32 bits of the sector count are the 32-bit value at
offset 0x1ca of the buffer after that call, the start sector stays the image
sector, and the total byte length is 512 times that count reduced to a signed
32-bit `long`, which is the exact product whenever the count is below 2^22. -/
theorem entrySizes_hard_disk_keep (b : Build) (s : St)
    (ht : rdBYTE s.buf 0x21 % 16 = 4) :
    (entryFields b false s).2.calls = s.calls ++ [(1, rdDWORD s.buf 0x28)] ∧
      (entryFields b false s).1.blksize = 512 ∧
      toDWORD (entryFields b false s).1.imgsize = rdDWORD (probe b s).buf 0x1ca ∧
      toDWORD (entrySizes b false s).1.offset = rdDWORD s.buf 0x28 ∧
      (entrySizes b false s).1.imgsize =
        toLong ((512 * rdDWORD (probe b s).buf 0x1ca : Nat) : Int) ∧
      (rdDWORD (probe b s).buf 0x1ca < 4194304 →
        (entrySizes b false s).1.imgsize = ((512 * rdDWORD (probe b s).buf 0x1ca : Nat) : Int)) := by
  have hf := sizeFields_keep b s ht
  have hd := rdDWORD_lt (probe b s).buf 0x1ca
  have htot := keep_total b s ht
  refine ⟨?_, ?_, ?_, ?_, htot, ?_⟩
  · rw [hf]; exact probe_calls b s
  · rw [hf]
  · rw [hf]
    show toDWORD (toLong (rdDWORD (probe b s).buf 0x1ca : Int)) = _
    rw [toDWORD_toLong, toDWORD_natCast _ hd]
  · rw [entrySizes_fst, hf]
    exact decodeEntry_startLBA s
  · intro hlt
    rw [htot, toLong_natCast _ (by omega)]

/-- C3 (as amended): for a hard disk emulation entry (low nibble 4) with MBR
stripping requested two probe calls are made, each for one sector: the first at
the image sector, the second at the adjusted start sector, which is the image
sector plus the 32-bit value at offset 0x1c6 of the buffer after the first call
shifted right by 2, modulo 2^32 (the exact sum whenever that is below 2^32);
this adjusted sector is the start sector used for extraction; the block size and
the 32 bits of the sector count are the values at offsets 11 and 19 (or 32, when
the value at 19 is 0) of the buffer after the second call, offset 0x1ca playing
no part. -/
theorem entrySizes_hard_disk_strip (b : Build) (s : St)
    (ht : rdBYTE s.buf 0x21 % 16 = 4) :
    (entryFields b true s).2.calls =
        s.calls ++ [(1, rdDWORD s.buf 0x28),
          (1, (rdDWORD s.buf 0x28 + rdDWORD (probe b s).buf 0x1c6 / 4) % 4294967296)] ∧
      toDWORD (entrySizes b true s).1.offset =
        (rdDWORD s.buf 0x28 + rdDWORD (probe b s).buf 0x1c6 / 4) % 4294967296 ∧
      (rdDWORD s.buf 0x28 + rdDWORD (probe b s).buf 0x1c6 / 4 < 4294967296 →
        toDWORD (entrySizes b true s).1.offset =
          rdDWORD s.buf 0x28 + rdDWORD (probe b s).buf 0x1c6 / 4) ∧
      (entryFields b true s).1.blksize = (rdWORD (reprobe b s).buf 11 : Int) ∧
      toDWORD (entryFields b true s).1.imgsize = bpbCount (reprobe b s).buf := by
  have hf := sizeFields_strip b s ht
  have hoff : toDWORD (entrySizes b true s).1.offset =
      (rdDWORD s.buf 0x28 + rdDWORD (probe b s).buf 0x1c6 / 4) % 4294967296 := by
    rw [entrySizes_fst, hf]
    exact adjusted_offset b s
  refine ⟨?_, hoff, ?_, ?_, ?_⟩
  · rw [hf]; exact reprobe_calls b s
  · intro hlt
    rw [hoff, Nat.mod_eq_of_lt hlt]
  · rw [hf]
  · rw [hf]; exact bpb_count_bits _

theorem specSizes_bounds (b : Build) (drive : Bool) (s : St) :
    (specSizes b drive s).1 < 65536 ∧ (specSizes b drive s).2 < 4294967296 := by
  have hb : ∀ buf : Nat → UInt8, bpbCount buf < 4294967296 := by
    intro buf
    have h1 := rdWORD_lt buf 19
    have h2 := rdDWORD_lt buf 32
    unfold bpbCount
    split <;> omega
  have h26 := rdWORD_lt s.buf 0x26
  have hp11 := rdWORD_lt (probe b s).buf 11
  have hr11 := rdWORD_lt (reprobe b s).buf 11
  have hca := rdDWORD_lt (probe b s).buf 0x1ca
  have hbp := hb (probe b s).buf
  have hbr := hb (reprobe b s).buf
  unfold specSizes
  split
  · exact ⟨by norm_num, by simp only; omega⟩
  · split
    · cases drive
      · exact ⟨by norm_num, by simpa using hca⟩
      · exact ⟨by simpa using hr11, by simpa using hbr⟩
    · exact ⟨hp11, hbp⟩

/-- The total computed by line 333 is the product of the two unsigned fields of
the specification, reduced to a signed 32-bit `long`. -/
theorem entrySizes_wrapped (b : Build) (drive : Bool) (s : St) :
    (entrySizes b drive s).1.imgsize =
      toLong (((specSizes b drive s).2 * (specSizes b drive s).1 : Nat) : Int) := by
  by_cases h0 : rdBYTE s.buf 0x21 % 16 = 0
  · have h := none_total b drive s h0
    unfold specSizes
    rw [if_pos h0]
    have hw := rdWORD_lt s.buf 0x26
    show (resolveSize b drive (decodeEntry s).1 (decodeEntry s).2).1.imgsize = _
    rw [h, toLong_natCast _ (by simp only; omega)]
    simp only [mul_comm]
  · by_cases h4 : rdBYTE s.buf 0x21 % 16 = 4
    · cases drive
      · have h := keep_total b s h4
        unfold specSizes
        rw [if_neg h0, if_pos h4, h]
        simp only [Bool.false_eq_true, if_false, mul_comm]
      · have hf := sizeFields_strip b s h4
        unfold specSizes
        rw [if_neg h0, if_pos h4, entrySizes_fst, hf]
        simp only [if_true]
        exact bpb_total _
    · have hf := sizeFields_bpb b drive s h0 h4
      unfold specSizes
      rw [if_neg h0, if_neg h4, entrySizes_fst, hf]
      exact bpb_total _

/-- C9 (as amended): for every catalog sector and every content of the probed
sectors, the total byte length is the product of the final sector count (below
2^32) and the final block size (below 2^16) reduced to a signed 32-bit `long`;
whenever that product is below 2^31 the total is the exact product and is not
negative. -/
theorem entrySizes_total (b : Build) (drive : Bool) (s : St) :
    (specSizes b drive s).1 < 65536 ∧ (specSizes b drive s).2 < 4294967296 ∧
      (entrySizes b drive s).1.imgsize =
        toLong (((specSizes b drive s).2 * (specSizes b drive s).1 : Nat) : Int) ∧
      ((specSizes b drive s).2 * (specSizes b drive s).1 < 2147483648 →
        (entrySizes b drive s).1.imgsize =
            (((specSizes b drive s).2 * (specSizes b drive s).1 : Nat) : Int) ∧
          0 ≤ (entrySizes b drive s).1.imgsize) := by
  refine ⟨(specSizes_bounds b drive s).1, (specSizes_bounds b drive s).2,
    entrySizes_wrapped b drive s, ?_⟩
  intro hlt
  rw [entrySizes_wrapped, toLong_natCast _ hlt]
  exact ⟨rfl, Int.natCast_nonneg _⟩

/-! ### Concrete runs of the size resolution -/

theorem entrySizes_floppy_witness :
    (rdBYTE (demoCatalog 2).buf 0x21 % 16 = 1 ∨ rdBYTE (demoCatalog 2).buf 0x21 % 16 = 2 ∨
        rdBYTE (demoCatalog 2).buf 0x21 % 16 = 3) ∧
      (entrySizes .win32 false (demoCatalog 2)).1.imgsize = ((3 * 512 : Nat) : Int) :=
  ⟨by decide,
    (entrySizes_floppy .win32 false (demoCatalog 2) (by decide)).2.2.2.2.1 (by decide)⟩

/-- C2, counterexample: a floppy entry whose parameter block declares 512 bytes
per sector and a large count of 4294967295 gets the total -512, not the product. -/
theorem floppy_total_is_not_the_product :
    rdBYTE cexFloppy.buf 0x21 % 16 = 2 ∧
      rdWORD (probe .win32 cexFloppy).buf 11 = 512 ∧
      bpbCount (probe .win32 cexFloppy).buf = 4294967295 ∧
      (entrySizes .win32 false cexFloppy).1.imgsize = -512 ∧
      (entrySizes .win32 false cexFloppy).1.imgsize ≠ ((4294967295 * 512 : Nat) : Int) := by
  decide

theorem entrySizes_hard_disk_keep_witness :
    rdBYTE (demoCatalog 4).buf 0x21 % 16 = 4 ∧
      (entrySizes .dos false (demoCatalog 4)).1.imgsize = ((512 * 8 : Nat) : Int) :=
  ⟨by decide, (entrySizes_hard_disk_keep .dos (demoCatalog 4) (by decide)).2.2.2.2.2 (by decide)⟩

/-- C4, counterexample: a hard disk entry kept whole whose first sector has
4294967294 at offset 0x1ca gets the total -1024, not 512 times that count. -/
theorem hard_disk_total_is_not_the_product :
    rdBYTE cexKeep.buf 0x21 % 16 = 4 ∧
      rdDWORD (probe .win32 cexKeep).buf 0x1ca = 4294967294 ∧
      (entrySizes .win32 false cexKeep).1.imgsize = -1024 ∧
      (entrySizes .win32 false cexKeep).1.imgsize ≠ ((512 * 4294967294 : Nat) : Int) := by
  decide

theorem entrySizes_hard_disk_strip_witness :
    rdBYTE (demoCatalog 4).buf 0x21 % 16 = 4 ∧
      (entryFields .win32 true (demoCatalog 4)).2.calls =
        [(1, 0x11), (1, 0x12)] ++ [(1, 0x13), (1, 0x14)] ∧
      toDWORD (entrySizes .win32 true (demoCatalog 4)).1.offset = 0x14 :=
  ⟨by decide, (entrySizes_hard_disk_strip .win32 (demoCatalog 4) (by decide)).1,
    (entrySizes_hard_disk_strip .win32 (demoCatalog 4) (by decide)).2.1⟩

/-- C3, counterexample: with the image sector 4294967295 and the value 4 at
offset 0x1c6 after the first probe call, the start sector used for extraction is
0 in both builds, not the sum 4294967296. -/
theorem stripped_start_is_not_the_sum :
    rdBYTE cexStrip.buf 0x21 % 16 = 4 ∧
      rdDWORD cexStrip.buf 0x28 = 4294967295 ∧
      rdDWORD (probe .win32 cexStrip).buf 0x1c6 / 4 = 1 ∧
      rdDWORD (probe .dos cexStrip).buf 0x1c6 / 4 = 1 ∧
      toDWORD (entrySizes .win32 true cexStrip).1.offset = 0 ∧
      toDWORD (entrySizes .dos true cexStrip).1.offset = 0 ∧
      (entrySizes .win32 true cexStrip).2.calls =
        [(1, 0x11), (1, 0x12), (1, 4294967295), (1, 0)] := by
  decide

theorem entrySizes_total_witness :
    (specSizes .win32 true (demoCatalog 4)).2 * (specSizes .win32 true (demoCatalog 4)).1
        < 2147483648 ∧
      (entrySizes .win32 true (demoCatalog 4)).1.imgsize = ((2880 * 512 : Nat) : Int) :=
  ⟨by decide, ((entrySizes_total .win32 true (demoCatalog 4)).2.2.2 (by decide)).1⟩

/-- C9, counterexample: a hard disk image of 0x800000 sectors of 512 bytes gets
the total 0, not the product 2^32; a parameter block with 1 byte per sector and
a large count of 0x80000000 gets the negative total -2147483648. -/
theorem total_is_not_exact_and_can_be_negative :
    (specSizes .win32 false cexBig = (512, 8388608) ∧
        (entrySizes .win32 false cexBig).1.imgsize = 0) ∧
      (specSizes .dos false cexNeg = (1, 2147483648) ∧
        (entrySizes .dos false cexNeg).1.imgsize = -2147483648 ∧
        (entrySizes .dos false cexNeg).1.imgsize < 0) := by
  decide

/-! ## The extraction loop -/

theorem File.bytes_add (f : File) (a l1 l2 : Nat) :
    f.bytes a (l1 + l2) = f.bytes a l1 ++ f.bytes (a + l1) l2 := by
  unfold File.bytes
  rw [List.range_add, List.map_append, List.map_map]
  congr 1
  apply List.map_congr_left
  intro i _
  simp only [Function.comp_apply, Nat.add_assoc]

theorem bufBytes_loaded (f : File) (old : Nat → UInt8) (a n len : Nat) (h : len ≤ n) :
    bufBytes (fun i => if i < n then f.byte (a + i) else old i) len = f.bytes a len := by
  unfold bufBytes File.bytes
  apply List.map_congr_left
  intro i hi
  have hlt : i < n := Nat.lt_of_lt_of_le (List.mem_range.mp hi) h
  simp only [hlt, if_true]

theorem shift_of_nat (T : Nat) : ((T : Int) >>> (11 : Nat)) = ((T / 2048 : Nat) : Int) := by
  rw [Int.shiftRight_eq_div_pow]
  norm_num

theorem chunk_of_nat (b : Build) (T : Nat) (hT : T < 2147483648) :
    chunk b (T : Int) =
      if T / 2048 > MAX b then MAX b else if T / 2048 = 0 then 1 else T / 2048 := by
  unfold chunk
  rw [shift_of_nat, toDWORD_natCast _ (by omega)]

theorem toUINT_small (b : Build) (n : Nat) (h : n < 65536) : toUINT b (n : Int) = n := by
  cases b <;> simp only [toUINT, uintBits] <;> omega

theorem chunkLen_of_nat (b : Build) (n T : Nat) (hn : n ≤ MAX b) (hT : T < 2147483648) :
    chunkLen b n (T : Int) = min (n * 2048) T := by
  have hn32 : n ≤ 32 := by cases b <;> simp only [MAX] at hn <;> omega
  unfold chunkLen
  rw [toUINT_small b n (by omega), req_of_small b n hn]
  cases b
  · simp only [lenGt, toDWORD_natCast T (by omega), decide_eq_true_eq]
    by_cases h : T < n * 2048
    · rw [if_pos h, Nat.min_eq_right (by omega)]
      simp only [toUINT, uintBits]
      omega
    · rw [if_neg h, Nat.min_eq_left (by omega)]
  · simp only [MAX] at hn
    simp only [lenGt, decide_eq_true_eq]
    by_cases h : T < n * 2048
    · have hi : (T : Int) < ((n * 2048 : Nat) : Int) := by exact_mod_cast h
      rw [if_pos hi, Nat.min_eq_right (by omega)]
      simp only [toUINT, uintBits]
      omega
    · have hi : ¬ (T : Int) < ((n * 2048 : Nat) : Int) := by exact_mod_cast h
      rw [if_neg hi, Nat.min_eq_left (by omega)]

theorem range_step (start T n B : Nat) (hlt : n * 2048 < T)
    (h : (start + (T + 2047) / 2048) * 2048 ≤ B) :
    (start + n + (T - n * 2048 + 2047) / 2048) * 2048 ≤ B := by
  omega

theorem fuel_step (T n fuel : Nat) (hn1 : 1 ≤ n) (hlt : n * 2048 < T)
    (hf : T / 2048 + 1 ≤ fuel + 1) : (T - n * 2048) / 2048 + 1 ≤ fuel := by
  omega

theorem inv_step (start n : Nat) (pos : Int)
    (hinv : (((start * 2048 : Nat) : Int) - pos) % 4294967296 ≠ 0) :
    ((((start + n) * 2048 : Nat) : Int) - toLong (pos + ((n * 2048 : Nat) : Int))) %
      4294967296 ≠ 0 := by
  unfold toLong
  omega

theorem MAX_bounds (b : Build) : 1 ≤ MAX b ∧ MAX b ≤ 32 := by
  cases b <;> decide

theorem chunk_facts (b : Build) (T : Nat) (hT0 : 0 < T) (hT : T < 2147483648) :
    1 ≤ chunk b (T : Int) ∧ chunk b (T : Int) ≤ MAX b ∧
      chunk b (T : Int) ≤ (T + 2047) / 2048 ∧ chunk b (T : Int) ≤ max 1 (T / 2048) := by
  have hM := MAX_bounds b
  rw [chunk_of_nat b T hT]
  split_ifs with h1 h2
  · refine ⟨hM.1, le_refl _, by omega, by omega⟩
  · refine ⟨le_refl _, hM.1, by omega, by omega⟩
  · refine ⟨by omega, by omega, by omega, by omega⟩

/-- The loop on a positive byte count, when every call repositions inside the
first 2 GiB of a file that holds the sectors and the destination has room. -/
theorem extractLoop_positive (b : Build) :
    ∀ (fuel T start : Nat) (s : St) (k : Sink),
      0 < T → T < 2147483648 →
      (start + (T + 2047) / 2048) * 2048 ≤ 2147483648 →
      (start + (T + 2047) / 2048) * 2048 ≤ s.fdin.size →
      (((start * 2048 : Nat) : Int) - s.pos) % 4294967296 ≠ 0 →
      T ≤ k.room →
      T / 2048 + 1 ≤ fuel →
      ∃ e, extractLoop b fuel (T : Int) (start : Int) s k = some e ∧ e.err = none ∧
        e.out.data = k.data ++ s.fdin.bytes (start * 2048) T := by
  intro fuel
  induction fuel with
  | zero =>
    intro T start s k _ _ _ _ _ _ hf
    omega
  | succ fuel ih =>
    intro T start s k hT0 hT hrange hfile hinv hroom hfuel
    have hM := MAX_bounds b
    obtain ⟨hn1, hnM, hnc, hnd⟩ := chunk_facts b T hT0 hT
    generalize hn : chunk b (T : Int) = n at hn1 hnM hnc hnd
    have hstart : start * 2048 < 2147483648 := by omega
    have hpos : s.pos ≠ ((start * 2048 : Nat) : Int) := by
      intro e
      apply hinv
      rw [e]
      simp
    have hread := CDReadLong_reposition b n start s hnM hstart hpos (by omega)
    have hlen := chunkLen_of_nat b n T hnM hT
    rw [extractLoop]
    simp only [hn, toUINT_small b n (by omega), toDWORD_natCast start (by omega), hread, hlen,
      Bool.not_true, Bool.false_eq_true, if_false, Sink.write]
    by_cases hlast : T ≤ n * 2048
    · have hmin : min (n * 2048) T = T := Nat.min_eq_right hlast
      have hw : min T k.room = T := Nat.min_eq_left hroom
      have hz : toLong ((T : Int) - (T : Int)) = 0 := by simp [toLong]
      simp only [hmin, hw, ne_eq, not_true_eq_false, if_false, hz]
      refine ⟨_, rfl, rfl, ?_⟩
      simp only [bufBytes_loaded s.fdin s.buf (start * 2048) (n * 2048) T hlast]
    · have hlt : n * 2048 < T := Nat.lt_of_not_le hlast
      have hmin : min (n * 2048) T = n * 2048 := Nat.min_eq_left (by omega)
      have hw : min (n * 2048) k.room = n * 2048 := Nat.min_eq_left (by omega)
      have hrest : toLong ((T : Int) - ((n * 2048 : Nat) : Int)) =
          ((T - n * 2048 : Nat) : Int) := by
        unfold toLong
        omega
      have hnext : toLong ((start : Int) + (n : Int)) = ((start + n : Nat) : Int) := by
        unfold toLong
        omega
      have hnz : ((T - n * 2048 : Nat) : Int) ≠ 0 := by omega
      simp only [hmin, hw, ne_eq, not_true_eq_false, if_false, hrest, hnext, hnz,
        not_false_eq_true, if_true]
      have hT' : T - n * 2048 < 2147483648 := Nat.lt_of_le_of_lt (Nat.sub_le _ _) hT
      have hT0' : 0 < T - n * 2048 := Nat.sub_pos_of_lt hlt
      have hroom' : T - n * 2048 ≤ k.room - n * 2048 := Nat.sub_le_sub_right hroom _
      obtain ⟨e, he, herr, hdata⟩ := ih (T - n * 2048) (start + n)
        { s with
          fp := (start + n) * 2048
          pos := toLong (s.pos + ((n * 2048 : Nat) : Int))
          buf := fun i => if i < n * 2048 then s.fdin.byte (start * 2048 + i) else s.buf i
          calls := s.calls ++ [(n, start)] }
        { data := k.data ++ bufBytes (fun i => if i < n * 2048 then s.fdin.byte (start * 2048 + i)
            else s.buf i) (n * 2048), room := k.room - n * 2048 }
        hT0' hT' (range_step start T n _ hlt hrange) (range_step start T n _ hlt hfile)
        (inv_step start n s.pos hinv) hroom' (fuel_step T n fuel hn1 hlt hfuel)
      refine ⟨e, he, herr, ?_⟩
      rw [hdata]
      simp only [bufBytes_loaded s.fdin s.buf (start * 2048) (n * 2048) (n * 2048) (le_refl _),
        List.append_assoc]
      have hsplit : T = n * 2048 + (T - n * 2048) := by omega
      have haddr : (start + n) * 2048 = start * 2048 + n * 2048 := by omega
      rw [haddr, ← File.bytes_add, ← hsplit]

theorem extractLoop_zero (b : Build) (fuel : Nat) (offset : Int) (s : St) (k : Sink) :
    ∃ e, extractLoop b (fuel + 1) 0 offset s k = some e ∧ e.out.data = k.data := by
  have hn : chunk b 0 = 1 := by cases b <;> rfl
  have hlen : chunkLen b 1 0 = 0 := by cases b <;> decide
  have hz : toLong (0 - ((0 : Nat) : Int)) = 0 := by decide
  rw [extractLoop]
  simp only [hn, hlen, Sink.write, Nat.zero_min, bufBytes, List.range_zero, List.map_nil,
    List.append_nil, ne_eq, not_true_eq_false, if_false, hz]
  generalize CDReadLong b _ _ s = r
  obtain ⟨ok, s1⟩ := r
  cases ok
  · exact ⟨_, rfl, rfl⟩
  · exact ⟨_, rfl, rfl⟩

/-- C1 (as amended): for a byte count `T` with `0 ≤ T < 2^31` and a start sector
such that the whole sectors covering the range lie in the first 2 GiB of the
file and are held by it, when the position tracked by the reader differs from
the start offset (so that the first call repositions) and the destination
accepts `T` bytes, the extraction loop ends after at most `T / 2048 + 1`
iterations, and the bytes it has appended to the output are exactly the `T`
bytes of the file at offsets `[start * 2048, start * 2048 + T)`: never more, the
padding of the last sectors read being dropped.  For `T > 0` it ends without
error. -/
theorem extractLoop_writes_the_range (b : Build) (fuel T start : Nat) (s : St) (k : Sink)
    (hT : T < 2147483648)
    (hrange : (start + (T + 2047) / 2048) * 2048 ≤ 2147483648)
    (hfile : (start + (T + 2047) / 2048) * 2048 ≤ s.fdin.size)
    (hlong : -2147483648 ≤ s.pos ∧ s.pos < 2147483648)
    (hpos : s.pos ≠ ((start * 2048 : Nat) : Int))
    (hroom : T ≤ k.room)
    (hfuel : T / 2048 + 1 ≤ fuel) :
    ∃ e, extractLoop b fuel (T : Int) (start : Int) s k = some e ∧
      e.out.data = k.data ++ s.fdin.bytes (start * 2048) T ∧
      e.out.data.length = k.data.length + T ∧
      (0 < T → e.err = none) := by
  have hlenB : (s.fdin.bytes (start * 2048) T).length = T := by
    simp [File.bytes]
  by_cases hT0 : 0 < T
  · obtain ⟨e, he, herr, hdata⟩ := extractLoop_positive b fuel T start s k hT0 hT hrange hfile
      (by omega) hroom hfuel
    refine ⟨e, he, hdata, ?_, fun _ => herr⟩
    rw [hdata, List.length_append, hlenB]
  · have hz : T = 0 := by omega
    subst hz
    obtain ⟨f, hf⟩ : ∃ f, fuel = f + 1 := ⟨fuel - 1, by omega⟩
    subst hf
    obtain ⟨e, he, hdata⟩ := extractLoop_zero b f (start : Int) s k
    refine ⟨e, he, ?_, ?_, fun h => absurd h hT0⟩
    · rw [hdata]
      simp [File.bytes]
    · rw [hdata]
      rfl

theorem extractLoop_writes_the_range_witness :
    (1536 < 2147483648 ∧
      (0x13 + (1536 + 2047) / 2048) * 2048 ≤ 2147483648 ∧
      (0x13 + (1536 + 2047) / 2048) * 2048 ≤ (probe .dos (demoCatalog 2)).fdin.size ∧
      (-2147483648 ≤ (probe .dos (demoCatalog 2)).pos ∧
        (probe .dos (demoCatalog 2)).pos < 2147483648) ∧
      (probe .dos (demoCatalog 2)).pos ≠ ((0x13 * 2048 : Nat) : Int)) ∧
      ∃ e, extractLoop .dos 1 ((1536 : Nat) : Int) ((0x13 : Nat) : Int)
          (probe .dos (demoCatalog 2)) ⟨[], 1536⟩ = some e ∧
        e.out.data = [] ++ (probe .dos (demoCatalog 2)).fdin.bytes (0x13 * 2048) 1536 ∧
        e.out.data.length = ([] : List UInt8).length + 1536 ∧
        (0 < 1536 → e.err = none) :=
  ⟨by decide,
    extractLoop_writes_the_range .dos 1 1536 0x13 (probe .dos (demoCatalog 2)) ⟨[], 1536⟩
      (by decide) (by decide) (by decide) (by decide) (by decide) (by decide) (by decide)⟩

/-- C1, counterexample: the file `wrapImage` holds sector 0x200000, whose first
byte is 2; extracting 1 byte from start sector 0x200000 writes the byte 1, the
first byte of sector 0, in both builds: `StartSector << 11` is 0 in 32 bits. -/
theorem extraction_past_4GiB_reads_sector_zero :
    (0x200000 + 1) * 2048 ≤ wrapImage.size ∧
      wrapImage.bytes (0x200000 * 2048) 1 = [2] ∧
      (extractLoop .win32 1 1 0x200000 wrapState ⟨[], 1⟩).map (fun e => (e.err, e.out.data)) =
        some (none, [1]) ∧
      (extractLoop .dos 1 1 0x200000 wrapState ⟨[], 1⟩).map (fun e => (e.err, e.out.data)) =
        some (none, [1]) := by
  decide

/-! ## Short reads -/

/-- The calls of lines 265, 279 and 352 are checked: a short read there ends the
stage with the message "Read error!" and the code `E_ABORTED`, and the
extraction loop writes nothing after it. -/
theorem checked_reads_abort (b : Build) (s : St) :
    ((CDReadLong b 1 0x11 s).1 = false →
        (locateCatalog b s).1 = .error ⟨E_ABORTED, .readError⟩) ∧
      (∀ bootfound, (CDReadLong b 1 bootfound s).1 = false →
        (parseCatalog b bootfound s).1 = .error ⟨E_ABORTED, .readError⟩) ∧
      (∀ fuel imgsize offset k,
        (CDReadLong b (toUINT b (chunk b imgsize)) (toDWORD offset) s).1 = false →
        ∃ e, extractLoop b (fuel + 1) imgsize offset s k = some e ∧
          e.err = some ⟨E_ABORTED, .readError⟩ ∧ e.out = k) := by
  refine ⟨?_, ?_, ?_⟩
  · intro h
    simp [locateCatalog, h]
  · intro bootfound h
    simp [parseCatalog, h]
  · intro fuel imgsize offset k h
    rw [extractLoop]
    simp [h]

/-- C10, the code at the failing input: on an image cut off right after its
catalog sector, with a floppy or a hard disk entry, the probe call of line 314
returns 0, and the run without `-o` nevertheless ends with exit code 0 and no
message, having shown an image size. -/
theorem short_probe_read_is_not_reported :
    (CDReadLong .win32 1 0x13 (decodeEntry (catalogOf (truncatedImage 2))).2).1 = false ∧
      ((main .win32 false none (truncatedImage 2) zeroBuf 0).map
            (fun r => (r.code, r.stderr, r.calls)) =
          some (0, none, [(1, 0x11), (1, 0x12), (1, 0x13)]) ∧
        (main .win32 false none (truncatedImage 2) zeroBuf 0).map
            (fun r => r.stdout.getLast?) = some (some (.imageSize 0))) ∧
      ((main .dos false none (truncatedImage 4) zeroBuf 0).map
            (fun r => (r.code, r.stderr, r.calls)) =
          some (0, none, [(1, 0x11), (1, 0x12), (1, 0x13)]) ∧
        (main .dos false none (truncatedImage 4) zeroBuf 0).map
            (fun r => r.stdout.getLast?) = some (some (.imageSize 0))) ∧
      ((main .dos true none (truncatedImage 4) zeroBuf 0).map
            (fun r => (r.code, r.stderr, r.calls)) =
          some (0, none, [(1, 0x11), (1, 0x12), (1, 0x13), (1, 0x13)]) ∧
        (main .dos true none (truncatedImage 4) zeroBuf 0).map
            (fun r => r.stdout.getLast?) = some (some (.imageSize 0))) := by
  exact ⟨by decide, ⟨by decide, by decide⟩, ⟨by decide, by decide⟩, ⟨by decide, by decide⟩⟩

/-! ## The reader against the reader that always repositions -/

/-- Whenever the request does not start at the tracked position, `CDReadLong`
is the reader that always repositions. -/
theorem CDReadLong_eq_seek (b : Build) (count start : Nat) (s : St)
    (h : toLong (toDWORD ((start <<< 11 : Nat) : Int)) ≠ s.pos) :
    CDReadLong b count start s = CDReadLongSeek b count start s := by
  unfold CDReadLong CDReadLongSeek
  simp only [h, ne_eq, not_false_eq_true, if_true]

set_option maxRecDepth 100000 in
/-- C11, the code at the failing input: on `lowImage` the requests made by a run
(sector 0x11, sector 0x12, then sector 3 twice) are all within the file; the last
one starts at the tracked position 0x1800 while the file pointer is at 0x2000,
so `CDReadLong` delivers the bytes of sector 4 where the reader that always
repositions delivers those of sector 3; the run with `-o` writes the first 1536
bytes of sector 4 as the boot image. -/
theorem skipped_reposition_reads_the_wrong_sector :
    (serve (CDReadLong .win32) [(1, 0x11), (1, 0x12), (1, 3), (1, 3)]
        (St.init lowImage zeroBuf)).map (fun r => (r.1, r.2.take 3)) =
      [(true, [0, 67, 68]), (true, [0, 0, 0]), (true, [7, 8, 9]), (true, [4, 4, 4])] ∧
    (serve (CDReadLongSeek .win32) [(1, 0x11), (1, 0x12), (1, 3), (1, 3)]
        (St.init lowImage zeroBuf)).map (fun r => (r.1, r.2.take 3)) =
      [(true, [0, 67, 68]), (true, [0, 0, 0]), (true, [7, 8, 9]), (true, [7, 8, 9])] ∧
    lowImage.bytes (3 * 2048) 3 = [7, 8, 9] ∧
    (main .win32 false (some ⟨true, 4096⟩) lowImage zeroBuf 4).map
        (fun r => (r.code, r.calls, r.image.map (fun d => (d.length, d.take 3)))) =
      some (0, [(1, 0x11), (1, 0x12), (1, 3), (1, 3)], some (1536, [4, 4, 4])) ∧
    (main .dos false (some ⟨true, 4096⟩) lowImage zeroBuf 4).map
        (fun r => (r.code, r.calls, r.image.map (fun d => (d.length, d.take 3)))) =
      some (0, [(1, 0x11), (1, 0x12), (1, 3), (1, 3)], some (1536, [4, 4, 4])) := by
  exact ⟨by decide, by decide, by decide, by decide, by decide⟩

/-! ## The iterations of the extraction loop -/

theorem chunk_bounds (b : Build) (T : Nat) (hT : T < 2147483648) :
    1 ≤ chunk b (T : Int) ∧ chunk b (T : Int) ≤ MAX b := by
  have hM := MAX_bounds b
  rw [chunk_of_nat b T hT]
  split_ifs with h1 h2
  · exact ⟨hM.1, le_refl _⟩
  · exact ⟨le_refl _, hM.1⟩
  · exact ⟨by omega, by omega⟩

theorem chunk_eq_floor_clamped (b : Build) (T : Nat) (hT : T < 2147483648) :
    chunk b (T : Int) = min (max (T / 2048) 1) (MAX b) := by
  have hM := MAX_bounds b
  rw [chunk_of_nat b T hT]
  split_ifs with h1 h2
  · rw [Nat.min_eq_right]
    exact le_trans (le_of_lt h1) (le_max_left _ _)
  · rw [h2]
    simp only [Nat.zero_max]
    exact (Nat.min_eq_left hM.1).symm
  · have h3 : 1 ≤ T / 2048 := Nat.one_le_iff_ne_zero.mpr h2
    rw [Nat.max_eq_left h3, Nat.min_eq_left (Nat.le_of_not_lt h1)]

theorem iterations_last (b : Build) (T : Nat) (h0 : 0 < T) (hT : T < 2147483648)
    (hl : T ≤ chunk b (T : Int) * 2048) : iterations b T = 1 := by
  rw [chunk_of_nat b T hT] at hl
  unfold iterations
  cases b <;> simp only [MAX] at hl ⊢ <;> split_ifs at hl ⊢ <;> omega

theorem iterations_step (b : Build) (T : Nat) (hT : T < 2147483648)
    (hl : chunk b (T : Int) * 2048 < T) :
    iterations b T = iterations b (T - chunk b (T : Int) * 2048) + 1 := by
  rw [chunk_of_nat b T hT] at hl ⊢
  unfold iterations
  cases b <;> simp only [MAX] at hl ⊢ <;> split_ifs at hl ⊢ <;> omega

theorem iterations_pos (b : Build) (T : Nat) : 1 ≤ iterations b T := by
  unfold iterations
  cases b <;> simp only [MAX] <;> split_ifs <;> omega

theorem rest_of_ge (T c : Nat) (hT : T < 2147483648) (h : c ≤ T) :
    toLong ((T : Int) - ((c : Nat) : Int)) = ((T - c : Nat) : Int) := by
  unfold toLong
  omega

/-- The loop on a positive byte count ends within `iterations b T` iterations,
whatever the reader and the destination do, and takes exactly that many when no
read and no write fails. -/
theorem extractLoop_count (b : Build) :
    ∀ (fuel T : Nat) (offset : Int) (s : St) (k : Sink),
      0 < T → T < 2147483648 → iterations b T ≤ fuel →
      ∃ e, extractLoop b fuel (T : Int) offset s k = some e ∧
        e.st.calls.length ≤ s.calls.length + iterations b T ∧
        (e.err = none → e.st.calls.length = s.calls.length + iterations b T) := by
  intro fuel
  induction fuel with
  | zero =>
    intro T offset s k _ _ hf
    have := iterations_pos b T
    omega
  | succ fuel ih =>
    intro T offset s k hT0 hT hfuel
    have hpos := iterations_pos b T
    obtain ⟨hn1, hnM⟩ := chunk_bounds b T hT
    have hlen := chunkLen_of_nat b (chunk b (T : Int)) T hnM hT
    have hc : (CDReadLong b (toUINT b (chunk b (T : Int))) (toDWORD offset) s).2.calls.length =
        s.calls.length + 1 := by
      rw [CDReadLong_calls, List.length_append]
      rfl
    rw [extractLoop]
    simp only [hlen, Sink.write]
    generalize CDReadLong b (toUINT b (chunk b (T : Int))) (toDWORD offset) s = r at hc ⊢
    obtain ⟨ok, s1⟩ := r
    simp only at hc
    cases ok
    · refine ⟨_, rfl, ?_, ?_⟩
      · simp only [hc]
        exact Nat.add_le_add_left hpos _
      · intro h
        cases h
    · simp only [Bool.not_true, Bool.false_eq_true, if_false]
      by_cases hw : min (min (chunk b (T : Int) * 2048) T) k.room =
          min (chunk b (T : Int) * 2048) T
      · simp only [hw, ne_eq, not_true_eq_false, if_false]
        by_cases hlast : T ≤ chunk b (T : Int) * 2048
        · have hmin : min (chunk b (T : Int) * 2048) T = T := Nat.min_eq_right hlast
          have hz : toLong ((T : Int) - (T : Int)) = 0 := by simp [toLong]
          have hit := iterations_last b T hT0 hT hlast
          simp only [hmin, hz, ne_eq, not_true_eq_false, if_false]
          refine ⟨_, rfl, ?_, ?_⟩
          · simp only [hc, hit, le_refl]
          · intro _
            simp only [hc, hit]
        · have hlt : chunk b (T : Int) * 2048 < T := Nat.lt_of_not_le hlast
          have hmin : min (chunk b (T : Int) * 2048) T = chunk b (T : Int) * 2048 :=
            Nat.min_eq_left (Nat.le_of_lt hlt)
          have hrest := rest_of_ge T (chunk b (T : Int) * 2048) hT (Nat.le_of_lt hlt)
          have hit := iterations_step b T hT hlt
          have hnz : ((T - chunk b (T : Int) * 2048 : Nat) : Int) ≠ 0 := by
            have : 0 < T - chunk b (T : Int) * 2048 := Nat.sub_pos_of_lt hlt
            exact_mod_cast (Nat.pos_iff_ne_zero.mp this)
          simp only [hmin, hrest, hnz, ne_eq, not_false_eq_true, if_true]
          obtain ⟨e, he, hle, heq⟩ := ih (T - chunk b (T : Int) * 2048)
            (toLong (offset + (chunk b (T : Int) : Int))) s1
            { data := k.data ++ bufBytes s1.buf (chunk b (T : Int) * 2048),
              room := k.room - chunk b (T : Int) * 2048 }
            (Nat.sub_pos_of_lt hlt) (Nat.lt_of_le_of_lt (Nat.sub_le _ _) hT)
            (by rw [hit] at hfuel; exact Nat.le_of_succ_le_succ hfuel)
          refine ⟨e, he, ?_, ?_⟩
          · rw [hit, ← Nat.add_assoc, Nat.add_right_comm, ← hc]
            exact hle
          · intro h
            rw [hit, ← Nat.add_assoc, Nat.add_right_comm, ← hc]
            exact heq h
      · simp only [hw, ne_eq, not_false_eq_true, if_true]
        refine ⟨_, rfl, ?_, ?_⟩
        · simp only [hc]
          exact Nat.add_le_add_left hpos _
        · intro h
          cases h

theorem extractLoop_zero_call (b : Build) (fuel : Nat) (offset : Int) (s : St) (k : Sink) :
    ∃ e, extractLoop b (fuel + 1) 0 offset s k = some e ∧
      e.st.calls = s.calls ++ [(1, toDWORD offset)] ∧ e.out.data = k.data := by
  have hn : chunk b 0 = 1 := by cases b <;> rfl
  have hu : toUINT b ((1 : Nat) : Int) = 1 := by cases b <;> decide
  have hlen : chunkLen b 1 0 = 0 := by cases b <;> decide
  have hz : toLong (0 - ((0 : Nat) : Int)) = 0 := by decide
  have hc := CDReadLong_calls b 1 (toDWORD offset) s
  rw [extractLoop]
  simp only [hn, hu, hlen, Sink.write, Nat.zero_min, bufBytes, List.range_zero, List.map_nil,
    List.append_nil, ne_eq, not_true_eq_false, if_false, hz]
  generalize CDReadLong b 1 (toDWORD offset) s = r at hc ⊢
  obtain ⟨ok, s1⟩ := r
  simp only at hc
  cases ok
  · exact ⟨_, rfl, hc, rfl⟩
  · exact ⟨_, rfl, hc, rfl⟩

/-- The loop logs its calls after those already made; the first one asks for
`chunk b imgsize` sectors at the start sector. -/
theorem extractLoop_first_call (b : Build) :
    ∀ (fuel : Nat) (imgsize offset : Int) (s : St) (k : Sink) (e : LoopEnd),
      extractLoop b (fuel + 1) imgsize offset s k = some e →
      ∃ rest, e.st.calls =
        s.calls ++ (toUINT b (chunk b imgsize), toDWORD offset) :: rest := by
  intro fuel
  induction fuel with
  | zero =>
    intro imgsize offset s k e h
    rw [extractLoop] at h
    have hc := CDReadLong_calls b (toUINT b (chunk b imgsize)) (toDWORD offset) s
    generalize CDReadLong b (toUINT b (chunk b imgsize)) (toDWORD offset) s = r at hc h
    simp only at h
    split_ifs at h
    · cases h; exact ⟨[], hc⟩
    · cases h; exact ⟨[], hc⟩
    · simp [extractLoop] at h
    · cases h; exact ⟨[], hc⟩
  | succ fuel ih =>
    intro imgsize offset s k e h
    rw [extractLoop] at h
    have hc := CDReadLong_calls b (toUINT b (chunk b imgsize)) (toDWORD offset) s
    generalize CDReadLong b (toUINT b (chunk b imgsize)) (toDWORD offset) s = r at hc h
    simp only at h
    split_ifs at h
    · cases h; exact ⟨[], hc⟩
    · cases h; exact ⟨[], hc⟩
    · obtain ⟨rest, hrest⟩ := ih _ _ _ _ _ h
      rw [hrest, hc, List.append_assoc]
      exact ⟨_, rfl⟩
    · cases h; exact ⟨[], hc⟩

/-- C12 (as amended): in an iteration of the extraction loop that starts with
`T` bytes remaining, `0 ≤ T < 2^31`, the number of sectors asked for is
`min (max (T / 2048) 1) MAX`: the remaining bytes are rounded down (not up) to
whole sectors, the count is at least 1 even when fewer than 2048 bytes remain,
and whenever the loop ends the first call it has logged is for that many
sectors at the start sector. -/
theorem sectors_read_per_iteration (b : Build) (T : Nat) (fuel : Nat) (offset : Int)
    (s : St) (k : Sink) (hT : T < 2147483648) :
    chunk b (T : Int) = min (max (T / 2048) 1) (MAX b) ∧
      1 ≤ chunk b (T : Int) ∧
      toUINT b (chunk b (T : Int)) = chunk b (T : Int) ∧
      (extractLoop b (fuel + 1) (T : Int) offset s k).map
          (fun e => (e.st.calls.drop s.calls.length).head?) =
        (extractLoop b (fuel + 1) (T : Int) offset s k).map
          (fun _ => some (min (max (T / 2048) 1) (MAX b), toDWORD offset)) := by
  have hM := MAX_bounds b
  obtain ⟨hn1, hnM⟩ := chunk_bounds b T hT
  have hu : toUINT b (chunk b (T : Int)) = chunk b (T : Int) :=
    toUINT_small b _ (Nat.lt_of_le_of_lt (le_trans hnM hM.2) (by norm_num))
  refine ⟨chunk_eq_floor_clamped b T hT, hn1, hu, ?_⟩
  cases h : extractLoop b (fuel + 1) (T : Int) offset s k with
  | none => rfl
  | some e =>
    obtain ⟨rest, hrest⟩ := extractLoop_first_call b fuel _ _ _ _ _ h
    simp only [Option.map_some', hrest, List.drop_left, List.head?_cons]
    rw [hu, chunk_eq_floor_clamped b T hT]

theorem sectors_read_per_iteration_witness :
    3000 < 2147483648 ∧ chunk .dos ((3000 : Nat) : Int) = min (max (3000 / 2048) 1) (MAX .dos) :=
  ⟨by decide,
    (sectors_read_per_iteration .dos 3000 1 0x13 (probe .dos (demoCatalog 2)) ⟨[], 3000⟩
      (by decide)).1⟩

/-- C12, counterexample: with 3000 bytes remaining the loop asks for 1 sector,
not for min(ceil(3000 / 2048), MAX) = 2; the second sector is read by a second
iteration. -/
theorem partial_sector_is_not_rounded_up :
    chunk .win32 3000 = 1 ∧ chunk .dos 3000 = 1 ∧
      min ((3000 + 2047) / 2048) (MAX .win32) = 2 ∧ min ((3000 + 2047) / 2048) (MAX .dos) = 2 ∧
      (extractLoop .win32 2 3000 0x13 (probe .win32 (demoCatalog 2)) ⟨[], 3000⟩).map
          (fun e => (e.err, e.st.calls.drop 3)) = some (none, [(1, 0x13), (1, 0x14)]) := by
  exact ⟨by decide, by decide, by decide, by decide, by decide⟩

/-- C19: for every byte count `T` with `0 ≤ T < 2^31` the extraction loop ends
within `iterations b T` iterations, that is ceil(q / MAX) + (1 if r > 0 else 0)
with `q = T / 2048` and `r = T % 2048`, and 1 for `T = 0`; when no read and no
write fails it makes exactly that many iterations (one call of the reader each).
For `T = 0` the single iteration asks for one sector at the start sector and
writes nothing.  For `T > 0` every iteration writes at least one byte, so the
remaining byte count strictly decreases. -/
theorem extractLoop_iterations (b : Build) (T fuel : Nat) (offset : Int) (s : St) (k : Sink)
    (hT : T < 2147483648) (hfuel : iterations b T ≤ fuel) :
    (∃ e, extractLoop b fuel (T : Int) offset s k = some e ∧
        e.st.calls.length ≤ s.calls.length + iterations b T ∧
        (e.err = none → e.st.calls.length = s.calls.length + iterations b T) ∧
        (T = 0 → e.st.calls = s.calls ++ [(1, toDWORD offset)] ∧ e.out.data = k.data)) ∧
      iterations b T =
        (if T = 0 then 1
         else (T / 2048 + MAX b - 1) / MAX b + (if 0 < T % 2048 then 1 else 0)) ∧
      (0 < T → 0 < chunkLen b (chunk b (T : Int)) (T : Int) ∧
        0 ≤ toLong ((T : Int) - (chunkLen b (chunk b (T : Int)) (T : Int) : Int)) ∧
        toLong ((T : Int) - (chunkLen b (chunk b (T : Int)) (T : Int) : Int)) < (T : Int)) := by
  refine ⟨?_, rfl, ?_⟩
  · by_cases hT0 : 0 < T
    · obtain ⟨e, he, hle, heq⟩ := extractLoop_count b fuel T offset s k hT0 hT hfuel
      exact ⟨e, he, hle, heq, fun h => absurd h (Nat.pos_iff_ne_zero.mp hT0)⟩
    · have hz : T = 0 := Nat.eq_zero_of_not_pos hT0
      subst hz
      have hi : iterations b 0 = 1 := rfl
      obtain ⟨f, hf⟩ : ∃ f, fuel = f + 1 := ⟨fuel - 1, by rw [hi] at hfuel; omega⟩
      subst hf
      obtain ⟨e, he, hcalls, hdata⟩ := extractLoop_zero_call b f offset s k
      refine ⟨e, he, ?_, ?_, fun _ => ⟨hcalls, hdata⟩⟩
      · rw [hcalls, hi, List.length_append]
        rfl
      · intro _
        rw [hcalls, hi, List.length_append]
        rfl
  · intro hT0
    obtain ⟨hn1, hnM⟩ := chunk_bounds b T hT
    rw [chunkLen_of_nat b _ T hnM hT]
    generalize chunk b (T : Int) = n at hn1
    have hmin : 0 < min (n * 2048) T := by
      apply Nat.lt_min.mpr
      exact ⟨by omega, hT0⟩
    have hle : min (n * 2048) T ≤ T := Nat.min_le_right _ _
    generalize min (n * 2048) T = len at hmin hle
    refine ⟨hmin, ?_, ?_⟩ <;> unfold toLong <;> omega

theorem extractLoop_iterations_witness :
    (4097 < 2147483648 ∧ iterations .dos 4097 ≤ 3) ∧
      iterations .dos 4097 =
        (if 4097 = 0 then 1
         else (4097 / 2048 + MAX .dos - 1) / MAX .dos + (if 0 < 4097 % 2048 then 1 else 0)) :=
  ⟨by decide,
    (extractLoop_iterations .dos 4097 3 0x13 (probe .dos (demoCatalog 2)) ⟨[], 4097⟩
      (by decide) (by decide)).2.1⟩

theorem bufferSize_eq (b : Build) : bufferSize b = MAX b * 2048 := by
  cases b <;> decide

/-- C20: in every iteration of the extraction loop, for every remaining byte
count `T` with `0 ≤ T < 2^31`, the sector count `n` satisfies `1 ≤ n ≤ MAX`, the
read asks for exactly `n * 2048` bytes, the byte count written is at most
`n * 2048`, and `n * 2048` is at most `MAX * 2048`, the size of the transfer
buffer; in the DOS build (`MAX = 30`) `n * 2048` is below 2^16. -/
theorem transfer_stays_in_buffer (b : Build) (T : Nat) (hT : T < 2147483648) :
    1 ≤ chunk b (T : Int) ∧ chunk b (T : Int) ≤ MAX b ∧
      toUINT b (((toUINT b (chunk b (T : Int)) <<< 11 : Nat)) : Int) = chunk b (T : Int) * 2048 ∧
      chunkLen b (chunk b (T : Int)) (T : Int) ≤ chunk b (T : Int) * 2048 ∧
      chunk b (T : Int) * 2048 ≤ MAX b * 2048 ∧
      bufferSize b = MAX b * 2048 ∧
      chunk .dos (T : Int) * 2048 < 65536 := by
  have hM := MAX_bounds b
  obtain ⟨hn1, hnM⟩ := chunk_bounds b T hT
  obtain ⟨_, hdM⟩ := chunk_bounds .dos T hT
  have hu : toUINT b (chunk b (T : Int)) = chunk b (T : Int) :=
    toUINT_small b _ (Nat.lt_of_le_of_lt (le_trans hnM hM.2) (by norm_num))
  refine ⟨hn1, hnM, ?_, ?_, Nat.mul_le_mul_right _ hnM, bufferSize_eq b, ?_⟩
  · rw [hu]
    exact req_of_small b _ hnM
  · rw [chunkLen_of_nat b _ T hnM hT]
    exact Nat.min_le_left _ _
  · simp only [MAX] at hdM
    omega

theorem transfer_stays_in_buffer_witness :
    100000 < 2147483648 ∧ chunk .dos ((100000 : Nat) : Int) ≤ MAX .dos :=
  ⟨by decide, (transfer_stays_in_buffer .dos 100000 (by decide)).2.1⟩

/-! ## Exit codes -/

theorem locateCatalog_fail (b : Build) (s : St) (e : Fail)
    (h : (locateCatalog b s).1 = .error e) : e.code = exitCodeOf e.msg := by
  unfold locateCatalog at h
  simp only at h
  split_ifs at h
  · cases h; rfl
  · cases h; rfl

theorem parseCatalog_fail (b : Build) (bootfound : Nat) (s : St) (e : Fail)
    (h : (parseCatalog b bootfound s).1 = .error e) : e.code = exitCodeOf e.msg := by
  unfold parseCatalog at h
  simp only at h
  split_ifs at h
  · cases h; rfl
  · cases h; rfl

theorem extractLoop_fail (b : Build) :
    ∀ (fuel : Nat) (imgsize offset : Int) (s : St) (k : Sink) (e : LoopEnd) (f : Fail),
      extractLoop b fuel imgsize offset s k = some e → e.err = some f →
      f.code = exitCodeOf f.msg := by
  intro fuel
  induction fuel with
  | zero =>
    intro imgsize offset s k e f h
    simp [extractLoop] at h
  | succ fuel ih =>
    intro imgsize offset s k e f h hf
    rw [extractLoop] at h
    simp only at h
    split_ifs at h
    · cases h; cases hf; rfl
    · cases h; cases hf; rfl
    · exact ih _ _ _ _ _ _ h hf
    · cases h; cases hf

/-- C13 (as amended): every run returns the exit code that goes with its message:
`E_NOCD` (3) for both "is not EL TORITO" and "has an invalid boot catalog",
`E_ABORTED` (5) for both "Read error!" and "Write error!", `E_CREATE` (4) for
"Cannot create", and 0 when there is no message; the codes 0, 3, 4 and 5 are
pairwise distinct, and the five kinds are told apart by their messages only. -/
theorem exit_code_of_run (b : Build) (drive : Bool) (outfile : Option Outfile)
    (image : File) (buf0 : Nat → UInt8) (fuel : Nat) :
    (main b drive outfile image buf0 fuel).map (fun r => r.code) =
        (main b drive outfile image buf0 fuel).map
          (fun r => match r.stderr with
            | none => E_OK
            | some m => exitCodeOf m) ∧
      exitCodeOf .notElTorito = 3 ∧ exitCodeOf .invalidCatalog = 3 ∧
      exitCodeOf .readError = 5 ∧ exitCodeOf .writeError = 5 ∧
      exitCodeOf .cannotCreate = 4 ∧ E_OK = 0 := by
  refine ⟨?_, rfl, rfl, rfl, rfl, rfl, rfl⟩
  unfold main
  split
  · rename_i e s1 hl
    have := locateCatalog_fail b (St.init image buf0) e (by rw [hl])
    simp [Run.fail, this]
  · rename_i bootfound s1 hl
    split
    · rename_i e s2 hp
      have := parseCatalog_fail b bootfound s1 e (by rw [hp])
      simp [Run.fail, this]
    · rename_i entry s2 hp
      split
      · rfl
      · rename_i o
        split_ifs
        · rfl
        · dsimp only
          split
          · rfl
          · rename_i e he
            split
            · rename_i f hf
              have := extractLoop_fail b _ _ _ _ _ e f he hf
              simp [Run.fail, this]
            · rfl

/-- C13, counterexample: a run that fails on the signature and a run that fails
on the catalog key bytes both return 3; a run that fails on a short read and a
run that fails on a short write both return 5. -/
theorem error_kinds_share_exit_codes :
    (main .win32 false none (File.ofRuns 0x9000 []) zeroBuf 0).map
        (fun r => (r.code, r.stderr)) = some (3, some .notElTorito) ∧
      (main .win32 false none noCatalogImage zeroBuf 0).map
        (fun r => (r.code, r.stderr)) = some (3, some .invalidCatalog) ∧
      (main .win32 false (some ⟨true, 4096⟩) (truncatedImage 2) zeroBuf 4).map
        (fun r => (r.code, r.stderr)) = some (5, some .readError) ∧
      (main .win32 false (some ⟨true, 0⟩) (demoImage 2) zeroBuf 4).map
        (fun r => (r.code, r.stderr)) = some (5, some .writeError) := by
  exact ⟨by decide, by decide, by decide, by decide⟩

/-! ## The decoded fields -/

theorem platform_name_eq (id : Nat) :
    (if id < 3 then platform.getD id "" else "unknown") = platformName id := by
  rcases id with _ | _ | _ | n
  · rfl
  · rfl
  · rfl
  · simp [platformName]

theorem boot_type_name_eq (n : Nat) :
    (if n < 5 then boot_type.getD n "" else "unknown") = emulationName n := by
  rcases n with _ | _ | _ | _ | _ | n
  · rfl
  · rfl
  · rfl
  · rfl
  · rfl
  · simp [emulationName]

theorem decodeEntry_shown (t : St) :
    (decodeEntry t).2.shown =
      t.shown ++
        [Line.platformLine (platformName (rdBYTE t.buf 1)) (rdBYTE t.buf 1),
          Line.idString (idString t.buf),
          Line.bootable (decide (t.buf 0x20 = 0x88)) (rdBYTE t.buf 0x20),
          Line.bootType (emulationName (rdBYTE t.buf 0x21 % 16)) (rdBYTE t.buf 0x21),
          Line.loadSegment (if rdWORD t.buf 0x22 = 0 then 0x7c0 else rdWORD t.buf 0x22),
          Line.systemType (rdBYTE t.buf 0x24),
          Line.sectorCount (toDWORD (rdWORD t.buf 0x26 : Int)),
          Line.imageSector (toDWORD (toLong (rdDWORD t.buf 0x28 : Int)))] := by
  have hand : rdBYTE t.buf 0x21 &&& 15 = rdBYTE t.buf 0x21 % 16 :=
    Nat.and_pow_two_sub_one_eq_mod _ 4
  rw [← platform_name_eq, ← boot_type_name_eq, ← hand]
  rfl

/-- C14: once the catalog sector has been read with the key bytes 0x55, 0xAA at
0x1e and 0x1f, parsing succeeds whatever the platform id (byte 1), the bootable
flag (byte 0x20), the emulation byte (0x21) and the system type (0x24) hold.
The emulation type is the low 4 bits of byte 0x21, so two sectors that agree on
these bits decode to the same type; it is shown as no emulation (0), a floppy (1
to 3), hard disk (4) or unknown (5 to 15); a platform id above 2 is shown as
unknown and a flag other than 0x88 as not bootable, without any error. -/
theorem parseCatalog_accepts_and_classifies (b : Build) (bootfound : Nat) (s : St)
    (hread : (CDReadLong b 1 bootfound s).1 = true)
    (hkey : (CDReadLong b 1 bootfound s).2.buf 0x1e = 0x55 ∧
      (CDReadLong b 1 bootfound s).2.buf 0x1f = 0xAA) :
    (parseCatalog b bootfound s).1 = .ok (decodeEntry (CDReadLong b 1 bootfound s).2).1 ∧
      (∀ t : St, (decodeEntry t).1.type = rdBYTE t.buf 0x21 % 16 ∧
        (decodeEntry t).1.type < 16 ∧
        Line.platformLine (platformName (rdBYTE t.buf 1)) (rdBYTE t.buf 1) ∈
          (decodeEntry t).2.shown ∧
        Line.bootable (decide (t.buf 0x20 = 0x88)) (rdBYTE t.buf 0x20) ∈
          (decodeEntry t).2.shown ∧
        Line.bootType (emulationName (rdBYTE t.buf 0x21 % 16)) (rdBYTE t.buf 0x21) ∈
          (decodeEntry t).2.shown ∧
        Line.systemType (rdBYTE t.buf 0x24) ∈ (decodeEntry t).2.shown) ∧
      (∀ t u : St, rdBYTE t.buf 0x21 % 16 = rdBYTE u.buf 0x21 % 16 →
        (decodeEntry t).1.type = (decodeEntry u).1.type) ∧
      (∀ id, 2 < id → platformName id = "unknown") ∧
      (∀ n, 4 < n → emulationName n = "unknown") ∧
      emulationName 0 = "no emulation" ∧ emulationName 1 = "1.2 meg floppy" ∧
      emulationName 2 = "1.44 meg floppy" ∧ emulationName 3 = "2.88 meg floppy" ∧
      emulationName 4 = "hard disk" := by
  refine ⟨?_, ?_, ?_, ?_, ?_, rfl, rfl, rfl, rfl, rfl⟩
  · unfold parseCatalog
    simp [hread, hkey.1, hkey.2]
  · intro t
    refine ⟨decodeEntry_type t, ?_, ?_, ?_, ?_, ?_⟩
    · rw [decodeEntry_type]
      exact Nat.mod_lt _ (by norm_num)
    all_goals
      rw [decodeEntry_shown]
      apply List.mem_append_right
      simp
  · intro t u h
    rw [decodeEntry_type, decodeEntry_type, h]
  · intro id h
    unfold platformName
    rw [if_neg (by omega), if_neg (by omega), if_neg (by omega)]
  · intro n h
    unfold emulationName
    rw [if_neg (by omega), if_neg (by omega), if_neg (by omega), if_neg (by omega),
      if_neg (by omega)]

theorem parseCatalog_accepts_and_classifies_witness :
    ((CDReadLong .win32 1 0x12 (locateCatalog .win32 (St.init (demoImage 0xF7) zeroBuf)).2).1
        = true ∧
      (CDReadLong .win32 1 0x12
          (locateCatalog .win32 (St.init (demoImage 0xF7) zeroBuf)).2).2.buf 0x1e = 0x55 ∧
      (CDReadLong .win32 1 0x12
          (locateCatalog .win32 (St.init (demoImage 0xF7) zeroBuf)).2).2.buf 0x1f = 0xAA) ∧
      (parseCatalog .win32 0x12 (locateCatalog .win32 (St.init (demoImage 0xF7) zeroBuf)).2).1 =
        .ok (decodeEntry (CDReadLong .win32 1 0x12
          (locateCatalog .win32 (St.init (demoImage 0xF7) zeroBuf)).2).2).1 :=
  ⟨by decide,
    (parseCatalog_accepts_and_classifies .win32 0x12
      (locateCatalog .win32 (St.init (demoImage 0xF7) zeroBuf)).2 (by decide) (by decide)).1⟩

/-! ## The byte offset of a read -/

/-- C17 (as amended): for every start sector `N` with `N * 2048 < 2^31` (the
offset `StartSector << 11` fits the 32-bit `long`), when the position tracked by
the reader differs from `N * 2048`, the file backend reads from byte offset
exactly `N * 2048`: the bytes transferred are the bytes of the file from that
offset on, as many of the bytes asked for as the file holds, and the file
pointer ends right after them. -/
theorem CDReadLong_reads_at_sector_offset (b : Build) (count N : Nat) (s : St)
    (hN : N * 2048 < 2147483648)
    (hpos : s.pos ≠ ((N * 2048 : Nat) : Int)) :
    toLong (toDWORD ((N <<< 11 : Nat) : Int)) = ((N * 2048 : Nat) : Int) ∧
      (CDReadLong b count N s).2.fp =
        N * 2048 + min (toUINT b ((count <<< 11 : Nat) : Int)) (s.fdin.size - N * 2048) ∧
      (∀ i, i < min (toUINT b ((count <<< 11 : Nat) : Int)) (s.fdin.size - N * 2048) →
        (CDReadLong b count N s).2.buf i = s.fdin.byte (N * 2048 + i)) ∧
      ((CDReadLong b count N s).1 = true ↔
        toUINT b ((count <<< 11 : Nat) : Int) ≤ s.fdin.size - N * 2048) := by
  have hofs := ofs_of_small N hN
  have hne : ((N * 2048 : Nat) : Int) ≠ s.pos := fun e => hpos e.symm
  have hseek := seek_of_nonneg b (N * 2048) s.fp (by omega)
  refine ⟨hofs, ?_, ?_, ?_⟩
  · unfold CDReadLong
    dsimp only
    rw [hofs, if_pos hne, hseek]
  · intro i hi
    unfold CDReadLong
    dsimp only
    rw [hofs, if_pos hne, hseek, if_pos hi]
  · unfold CDReadLong
    dsimp only
    rw [hofs, if_pos hne, hseek]
    simp only [beq_iff_eq]
    exact min_eq_left_iff

theorem CDReadLong_reads_at_sector_offset_witness :
    (0x13 * 2048 < 2147483648 ∧ (demoCatalog 2).pos ≠ ((0x13 * 2048 : Nat) : Int)) ∧
      (CDReadLong .win32 1 0x13 (demoCatalog 2)).2.fp =
        0x13 * 2048 + min (toUINT .win32 ((1 <<< 11 : Nat) : Int))
          ((demoCatalog 2).fdin.size - 0x13 * 2048) :=
  ⟨by decide,
    (CDReadLong_reads_at_sector_offset .win32 1 0x13 (demoCatalog 2) (by decide)
      (by decide)).2.1⟩

/-- C17, counterexample: for the start sector 0x200000 the offset
`StartSector << 11` is 0 in 32 bits, and both builds read from byte 0 of the
file, not from byte 0x200000 * 2048 = 2^32, which the file holds; for the start
sector 0x100000 the offset is -2^31 as a `long`, and the Win32 build, whose
repositioning call refuses it, reads from where the file pointer was. -/
theorem sector_offset_wraps_in_32_bits :
    (0x200000 + 1) * 2048 ≤ wrapImage.size ∧
      toLong (toDWORD ((0x200000 <<< 11 : Nat) : Int)) = 0 ∧
      (CDReadLong .win32 1 0x200000 wrapState).2.fp = 0 + 2048 ∧
      (CDReadLong .dos 1 0x200000 wrapState).2.fp = 0 + 2048 ∧
      (CDReadLong .win32 1 0x200000 wrapState).2.buf 0 = wrapImage.byte 0 ∧
      wrapImage.byte 0 ≠ wrapImage.byte (0x200000 * 2048) ∧
      toLong (toDWORD ((0x100000 <<< 11 : Nat) : Int)) = -2147483648 ∧
      (CDReadLong .win32 1 0x100000 wrapState).2.fp = wrapState.fp + 2048 := by
  decide

/-! ## Unknown emulation types -/

theorem entrySizes_of_fields (b : Build) (s : St)
    (h : entryFields b true s = entryFields b false s) :
    entrySizes b true s = entrySizes b false s := by
  unfold entrySizes resolveSize
  unfold entryFields at h
  rw [h]

/-- C18: for a catalog entry whose emulation nibble is 5 to 15, with or without
MBR stripping, exactly one probe call is made, for one sector at the image
sector; the block size is the 16-bit value at offset 11 of the buffer after that
call, the sector count is the 16-bit value at offset 19 or, when that is 0, the
32-bit value at offset 32 (held in a `long`), and the start sector stays the
image sector.  Whenever the nibble is not 4 the strip option changes nothing in
the result of size resolution. -/
theorem entrySizes_unknown_emulation (b : Build) (drive : Bool) (s : St)
    (ht : 5 ≤ rdBYTE s.buf 0x21 % 16) :
    (entryFields b drive s).2.calls = s.calls ++ [(1, rdDWORD s.buf 0x28)] ∧
      (entryFields b drive s).1.blksize = (rdWORD (probe b s).buf 11 : Int) ∧
      (entryFields b drive s).1.imgsize =
        (if rdWORD (probe b s).buf 19 = 0 then toLong (rdDWORD (probe b s).buf 32 : Int)
         else (rdWORD (probe b s).buf 19 : Int)) ∧
      toDWORD (entryFields b drive s).1.imgsize = bpbCount (probe b s).buf ∧
      toDWORD (entrySizes b drive s).1.offset = rdDWORD s.buf 0x28 ∧
      entrySizes b true s = entrySizes b false s ∧
      (∀ t : St, rdBYTE t.buf 0x21 % 16 ≠ 4 → entrySizes b true t = entrySizes b false t) := by
  have h0 : rdBYTE s.buf 0x21 % 16 ≠ 0 := by omega
  have h4 : rdBYTE s.buf 0x21 % 16 ≠ 4 := by omega
  have hf := sizeFields_bpb b drive s h0 h4
  have hall : ∀ t : St, rdBYTE t.buf 0x21 % 16 ≠ 4 →
      entrySizes b true t = entrySizes b false t := by
    intro t ht4
    apply entrySizes_of_fields
    by_cases ht0 : rdBYTE t.buf 0x21 % 16 = 0
    · unfold entryFields
      rw [sizeFields_none b true t ht0, sizeFields_none b false t ht0]
    · rw [sizeFields_bpb b true t ht0 ht4, sizeFields_bpb b false t ht0 ht4]
  refine ⟨?_, ?_, ?_, ?_, ?_, hall s h4, hall⟩
  · rw [hf]; exact probe_calls b s
  · rw [hf]
  · rw [hf]
    simp only [Nat.cast_eq_zero]
  · rw [hf]; exact bpb_count_bits _
  · rw [entrySizes_fst, hf]
    exact decodeEntry_startLBA s

theorem entrySizes_unknown_emulation_witness :
    5 ≤ rdBYTE (demoCatalog 9).buf 0x21 % 16 ∧
      (entryFields .dos true (demoCatalog 9)).2.calls =
        (demoCatalog 9).calls ++ [(1, rdDWORD (demoCatalog 9).buf 0x28)] :=
  ⟨by decide, (entrySizes_unknown_emulation .dos true (demoCatalog 9) (by decide)).1⟩

/-! ## Repeated extraction -/

theorem inv_of_ne (start : Nat) (pos : Int) (hstart : start * 2048 < 2147483648)
    (hlong : -2147483648 ≤ pos ∧ pos < 2147483648)
    (hpos : pos ≠ ((start * 2048 : Nat) : Int)) :
    (((start * 2048 : Nat) : Int) - pos) % 4294967296 ≠ 0 := by
  omega

theorem start_lt_of_range (start T : Nat) (hT0 : 0 < T)
    (h : (start + (T + 2047) / 2048) * 2048 ≤ 2147483648) :
    start * 2048 < 2147483648 := by
  omega

/-- The output of the loop under the conditions of `extractLoop_positive`, for
any byte count from 0 on. -/
theorem extractLoop_data (b : Build) (fuel T start : Nat) (s : St) (k : Sink)
    (hT : T < 2147483648)
    (hrange : (start + (T + 2047) / 2048) * 2048 ≤ 2147483648)
    (hfile : (start + (T + 2047) / 2048) * 2048 ≤ s.fdin.size)
    (hlong : -2147483648 ≤ s.pos ∧ s.pos < 2147483648)
    (hpos : s.pos ≠ ((start * 2048 : Nat) : Int))
    (hroom : T ≤ k.room)
    (hfuel : T / 2048 + 1 ≤ fuel) :
    ∃ e, extractLoop b fuel (T : Int) (start : Int) s k = some e ∧
      e.out.data = k.data ++ s.fdin.bytes (start * 2048) T := by
  by_cases hT0 : 0 < T
  · have hinv := inv_of_ne start s.pos (start_lt_of_range start T hT0 hrange) hlong hpos
    obtain ⟨e, he, _, hdata⟩ :=
      extractLoop_positive b fuel T start s k hT0 hT hrange hfile hinv hroom hfuel
    exact ⟨e, he, hdata⟩
  · have hz : T = 0 := Nat.eq_zero_of_not_pos hT0
    subst hz
    obtain ⟨f, hf⟩ : ∃ f, fuel = f + 1 := ⟨fuel - 1, by omega⟩
    subst hf
    obtain ⟨e, he, hdata⟩ := extractLoop_zero b f (start : Int) s k
    refine ⟨e, he, ?_⟩
    rw [hdata]
    simp [File.bytes]

/-- C16 (as amended): for a source that holds, within its first 2 GiB, the whole
sectors covering the range of a byte count `T` with `0 ≤ T < 2^31`, two
extractions to two fresh outputs that accept `T` bytes, each started in a reader
state whose tracked position differs from `start * 2048` (so that its first call
repositions), end with byte-identical outputs, each of length exactly `T`: the
`T` bytes of the file from offset `start * 2048` on, whatever the two reader
states and the two builds are. -/
theorem extraction_is_repeatable (b1 b2 : Build) (fuel1 fuel2 T start : Nat)
    (s1 s2 : St) (room1 room2 : Nat)
    (hsame : s1.fdin = s2.fdin)
    (hT : T < 2147483648)
    (hrange : (start + (T + 2047) / 2048) * 2048 ≤ 2147483648)
    (hfile : (start + (T + 2047) / 2048) * 2048 ≤ s1.fdin.size)
    (hlong1 : -2147483648 ≤ s1.pos ∧ s1.pos < 2147483648)
    (hpos1 : s1.pos ≠ ((start * 2048 : Nat) : Int))
    (hlong2 : -2147483648 ≤ s2.pos ∧ s2.pos < 2147483648)
    (hpos2 : s2.pos ≠ ((start * 2048 : Nat) : Int))
    (hroom1 : T ≤ room1) (hroom2 : T ≤ room2)
    (hfuel1 : T / 2048 + 1 ≤ fuel1) (hfuel2 : T / 2048 + 1 ≤ fuel2) :
    ∃ e1 e2, extractLoop b1 fuel1 (T : Int) (start : Int) s1 ⟨[], room1⟩ = some e1 ∧
      extractLoop b2 fuel2 (T : Int) (start : Int) s2 ⟨[], room2⟩ = some e2 ∧
      e1.out.data = e2.out.data ∧
      e1.out.data = s1.fdin.bytes (start * 2048) T ∧
      e1.out.data.length = T ∧ e2.out.data.length = T := by
  have hfile2 : (start + (T + 2047) / 2048) * 2048 ≤ s2.fdin.size := by rw [← hsame]; exact hfile
  obtain ⟨e1, he1, hd1⟩ := extractLoop_data b1 fuel1 T start s1 ⟨[], room1⟩ hT hrange hfile
    hlong1 hpos1 hroom1 hfuel1
  obtain ⟨e2, he2, hd2⟩ := extractLoop_data b2 fuel2 T start s2 ⟨[], room2⟩ hT hrange hfile2
    hlong2 hpos2 hroom2 hfuel2
  have hlen : (s1.fdin.bytes (start * 2048) T).length = T := by simp [File.bytes]
  simp only [List.nil_append] at hd1 hd2
  rw [← hsame] at hd2
  refine ⟨e1, e2, he1, he2, ?_, hd1, ?_, ?_⟩
  · rw [hd1, hd2]
  · rw [hd1, hlen]
  · rw [hd2, hlen]

theorem extraction_is_repeatable_witness :
    ((probe .dos (demoCatalog 2)).fdin = (demoCatalog 2).fdin ∧
      1536 < 2147483648 ∧
      (0x13 + (1536 + 2047) / 2048) * 2048 ≤ 2147483648 ∧
      (0x13 + (1536 + 2047) / 2048) * 2048 ≤ (probe .dos (demoCatalog 2)).fdin.size ∧
      (-2147483648 ≤ (probe .dos (demoCatalog 2)).pos ∧
        (probe .dos (demoCatalog 2)).pos < 2147483648) ∧
      (probe .dos (demoCatalog 2)).pos ≠ ((0x13 * 2048 : Nat) : Int) ∧
      (-2147483648 ≤ (demoCatalog 2).pos ∧ (demoCatalog 2).pos < 2147483648) ∧
      (demoCatalog 2).pos ≠ ((0x13 * 2048 : Nat) : Int)) ∧
      ∃ e1 e2,
        extractLoop .dos 1 ((1536 : Nat) : Int) ((0x13 : Nat) : Int)
            (probe .dos (demoCatalog 2)) ⟨[], 1536⟩ = some e1 ∧
          extractLoop .win32 2 ((1536 : Nat) : Int) ((0x13 : Nat) : Int)
            (demoCatalog 2) ⟨[], 2000⟩ = some e2 ∧
          e1.out.data = e2.out.data ∧
          e1.out.data = (probe .dos (demoCatalog 2)).fdin.bytes (0x13 * 2048) 1536 ∧
          e1.out.data.length = 1536 ∧ e2.out.data.length = 1536 :=
  ⟨⟨rfl, by decide, by decide, by decide, by decide, by decide, by decide, by decide⟩,
    extraction_is_repeatable .dos .win32 1 2 1536 0x13 (probe .dos (demoCatalog 2))
      (demoCatalog 2) 1536 2000 rfl (by decide) (by decide) (by decide) (by decide) (by decide)
      (by decide) (by decide) (by decide) (by decide) (by decide) (by decide)⟩

/-- C16, counterexample: on an image cut off before its boot image, with a
no-emulation entry of 4 declared sectors (2048 bytes) at sector 0x13, the run
with `-o` shows the size 2048 and fails on the first read: the output file holds
0 bytes, not 2048, in this and in every later run. -/
theorem truncated_source_gives_a_short_output :
    (main .win32 false (some ⟨true, 4096⟩) (truncatedImage 0) zeroBuf 4).map
        (fun r => (r.code, r.stderr, r.stdout.getLast?)) =
      some (5, some .readError, some (.imageSize 2048)) ∧
    (main .win32 false (some ⟨true, 4096⟩) (truncatedImage 0) zeroBuf 4).map
        (fun r => r.image.map List.length) = some (some 0) := by
  exact ⟨by decide, by decide⟩

/-! ## The load segment -/

/-- A complete call that stays clear of the two differing file bytes leaves the
same buffer in both runs, and the two runs stay alike. -/
theorem CDReadLong_alike (b : Build) (X a : Nat) (s t : St)
    (hR : sameUpToLoadSegment X s t) (hc : cleanRead b X a s) :
    (CDReadLong b 1 a s).2.buf = (CDReadLong b 1 a t).2.buf ∧
      sameUpToLoadSegment X (CDReadLong b 1 a s).2 (CDReadLong b 1 a t).2 := by
  obtain ⟨hfp, hpos, hsize, hfile, hbuf⟩ := hR
  obtain ⟨hok, hclear⟩ := hc
  have hreq := toUINT_sector b
  unfold CDReadLong at hok hclear ⊢
  simp only [hreq, ← hfp, ← hpos, ← hsize] at hok hclear ⊢
  generalize (if toLong (toDWORD ((a <<< 11 : Nat) : Int)) ≠ s.pos
    then seek b (toLong (toDWORD ((a <<< 11 : Nat) : Int))) s.fp else s.fp) = fp0 at hok hclear ⊢
  have hlen : min 2048 (s.fdin.size - fp0) = 2048 := by simpa using hok
  rw [hlen] at hclear ⊢
  have hb : (fun i => if i < 2048 then s.fdin.byte (fp0 + i) else s.buf i) =
      (fun i => if i < 2048 then t.fdin.byte (fp0 + i) else t.buf i) := by
    funext i
    by_cases hi : i < 2048
    · rw [if_pos hi, if_pos hi]
      apply hfile <;> omega
    · rw [if_neg hi, if_neg hi]
      apply hbuf <;> omega
  refine ⟨hb, rfl, rfl, hsize, hfile, ?_⟩
  intro i _ _
  exact congrFun hb i

theorem decodeEntry_alike (X : Nat) (s t : St) (hR : sameUpToLoadSegment X s t) :
    rdBYTE s.buf 0x21 = rdBYTE t.buf 0x21 ∧
      rdDWORD s.buf 0x28 = rdDWORD t.buf 0x28 ∧
      (decodeEntry s).1 = (decodeEntry t).1 ∧
      sameUpToLoadSegment X (decodeEntry s).2 (decodeEntry t).2 := by
  obtain ⟨hfp, hpos, hsize, hfile, hbuf⟩ := hR
  have h21 : s.buf 0x21 = t.buf 0x21 := hbuf _ (by norm_num) (by norm_num)
  have h26 : s.buf 0x26 = t.buf 0x26 := hbuf _ (by norm_num) (by norm_num)
  have h27 : s.buf 0x27 = t.buf 0x27 := hbuf _ (by norm_num) (by norm_num)
  have h28 : s.buf 0x28 = t.buf 0x28 := hbuf _ (by norm_num) (by norm_num)
  have h29 : s.buf 0x29 = t.buf 0x29 := hbuf _ (by norm_num) (by norm_num)
  have h2a : s.buf 0x2a = t.buf 0x2a := hbuf _ (by norm_num) (by norm_num)
  have h2b : s.buf 0x2b = t.buf 0x2b := hbuf _ (by norm_num) (by norm_num)
  have e21 : rdBYTE s.buf 0x21 = rdBYTE t.buf 0x21 := by simp only [rdBYTE, h21]
  have e26 : rdWORD s.buf 0x26 = rdWORD t.buf 0x26 := by simp only [rdWORD, rdBYTE, h26, h27]
  have e28 : rdDWORD s.buf 0x28 = rdDWORD t.buf 0x28 := by
    simp only [rdDWORD, rdWORD, rdBYTE, h28, h29, h2a, h2b]
  refine ⟨e21, e28, ?_, ⟨hfp, hpos, hsize, hfile, hbuf⟩⟩
  show (⟨rdBYTE s.buf 0x21 &&& 15, (rdWORD s.buf 0x26 : Int),
      toLong (rdDWORD s.buf 0x28 : Int)⟩ : Entry) =
    ⟨rdBYTE t.buf 0x21 &&& 15, (rdWORD t.buf 0x26 : Int), toLong (rdDWORD t.buf 0x28 : Int)⟩
  rw [e21, e26, e28]

theorem probe_alike (b : Build) (X : Nat) (s t : St) (hR : sameUpToLoadSegment X s t)
    (hc : cleanRead b X (rdDWORD s.buf 0x28) (decodeEntry s).2) :
    (probe b s).buf = (probe b t).buf ∧ sameUpToLoadSegment X (probe b s) (probe b t) := by
  obtain ⟨_, e28, _, hR2⟩ := decodeEntry_alike X s t hR
  unfold probe
  rw [decodeEntry_startLBA, decodeEntry_startLBA, ← e28]
  exact CDReadLong_alike b X _ _ _ hR2 hc

theorem reprobe_alike (b : Build) (X : Nat) (s t : St) (hR : sameUpToLoadSegment X s t)
    (hc : cleanRead b X (rdDWORD s.buf 0x28) (decodeEntry s).2)
    (hc2 : cleanRead b X (adjustedLBA b s) (probe b s)) :
    adjustedLBA b s = adjustedLBA b t ∧ (reprobe b s).buf = (reprobe b t).buf := by
  obtain ⟨_, e28, _, _⟩ := decodeEntry_alike X s t hR
  obtain ⟨hpb, hpR⟩ := probe_alike b X s t hR hc
  have hadj : adjustedLBA b s = adjustedLBA b t := by
    unfold adjustedLBA
    rw [e28, hpb]
  refine ⟨hadj, ?_⟩
  unfold reprobe
  rw [← hadj]
  exact (CDReadLong_alike b X _ _ _ hpR hc2).1

/-- C15 (as amended): for two runs on sources that are identical except for
bytes 0x22-0x23 of the boot catalog sector (the load segment field, whose raw
value 0 is shown as 0x7c0), with the same strip option, when every probe call
of size resolution is complete and does not read these two bytes of the file,
the resolved block size, sector count, total byte length and start sector are
the same; for emulation type none no probe call is made and they are always the
same. -/
theorem load_segment_leaves_sizes_alone (b : Build) (drive : Bool) (X : Nat) (s t : St)
    (hR : sameUpToLoadSegment X s t)
    (hprobe : rdBYTE s.buf 0x21 % 16 ≠ 0 →
      cleanRead b X (rdDWORD s.buf 0x28) (decodeEntry s).2)
    (hreprobe : rdBYTE s.buf 0x21 % 16 = 4 → drive = true →
      cleanRead b X (adjustedLBA b s) (probe b s)) :
    (entryFields b drive s).1 = (entryFields b drive t).1 ∧
      (entrySizes b drive s).1 = (entrySizes b drive t).1 ∧
      Line.loadSegment (if rdWORD s.buf 0x22 = 0 then 0x7c0 else rdWORD s.buf 0x22) ∈
        (decodeEntry s).2.shown := by
  obtain ⟨e21, _, hentry, _⟩ := decodeEntry_alike X s t hR
  have hfields : (entryFields b drive s).1 = (entryFields b drive t).1 := by
    by_cases h0 : rdBYTE s.buf 0x21 % 16 = 0
    · have h0t : rdBYTE t.buf 0x21 % 16 = 0 := by rw [← e21]; exact h0
      unfold entryFields
      rw [sizeFields_none b drive s h0, sizeFields_none b drive t h0t, hentry]
    · have h0t : rdBYTE t.buf 0x21 % 16 ≠ 0 := by rw [← e21]; exact h0
      obtain ⟨hpb, _⟩ := probe_alike b X s t hR (hprobe h0)
      by_cases h4 : rdBYTE s.buf 0x21 % 16 = 4
      · have h4t : rdBYTE t.buf 0x21 % 16 = 4 := by rw [← e21]; exact h4
        cases drive
        · rw [sizeFields_keep b s h4, sizeFields_keep b t h4t, hpb, hentry]
        · obtain ⟨_, hrb⟩ := reprobe_alike b X s t hR (hprobe h0) (hreprobe h4 rfl)
          rw [sizeFields_strip b s h4, sizeFields_strip b t h4t, hpb, hrb, hentry]
      · have h4t : rdBYTE t.buf 0x21 % 16 ≠ 4 := by rw [← e21]; exact h4
        rw [sizeFields_bpb b drive s h0 h4, sizeFields_bpb b drive t h0t h4t, hpb, hentry]
  refine ⟨hfields, ?_, ?_⟩
  · rw [entrySizes_fst, entrySizes_fst, hfields]
  · rw [decodeEntry_shown]
    apply List.mem_append_right
    simp

theorem sameUpToLoadSegment_with (v : UInt8) (X : Nat) (s : St) :
    sameUpToLoadSegment X s (withLoadSegment v X s) := by
  refine ⟨rfl, rfl, rfl, ?_, ?_⟩
  · intro i h _
    simp only [withLoadSegment, if_neg h]
  · intro i h _
    simp only [withLoadSegment, if_neg h]

theorem load_segment_leaves_sizes_alone_witness :
    sameUpToLoadSegment 0x9022 (demoCatalog 2) (withLoadSegment 5 0x9022 (demoCatalog 2)) ∧
      cleanRead .win32 0x9022 (rdDWORD (demoCatalog 2).buf 0x28) (decodeEntry (demoCatalog 2)).2 ∧
      rdWORD (demoCatalog 2).buf 0x22 ≠ rdWORD (withLoadSegment 5 0x9022 (demoCatalog 2)).buf 0x22 ∧
      (entrySizes .win32 false (demoCatalog 2)).1 =
        (entrySizes .win32 false (withLoadSegment 5 0x9022 (demoCatalog 2))).1 :=
  ⟨sameUpToLoadSegment_with 5 0x9022 (demoCatalog 2),
    by unfold cleanRead; decide,
    by decide,
    (load_segment_leaves_sizes_alone .win32 false 0x9022 (demoCatalog 2)
      (withLoadSegment 5 0x9022 (demoCatalog 2))
      (sameUpToLoadSegment_with 5 0x9022 (demoCatalog 2))
      (fun _ => by unfold cleanRead; decide)
      (fun h => absurd h (by decide))).2.1⟩

/-- C15, counterexample: two sources that differ only in the load segment field
of the catalog sector (0 and 1), with a floppy entry that names the catalog
sector itself as the image sector: the probe call is complete in both runs and
the load segment is read back as the high half of the large sector count, so
the totals are 331776 and 33886208 bytes. -/
theorem load_segment_read_back_as_sector_count :
    (CDReadLong .win32 1 0x12 (decodeEntry (catalogOf (selfProbeImage [0, 0]))).2).1 = true ∧
      (CDReadLong .win32 1 0x12 (decodeEntry (catalogOf (selfProbeImage [1, 0]))).2).1 = true ∧
      (entrySizes .win32 false (catalogOf (selfProbeImage [0, 0]))).1 =
        { blksize := 512, imgsize := 331776, offset := 0x12 } ∧
      (entrySizes .win32 false (catalogOf (selfProbeImage [1, 0]))).1 =
        { blksize := 512, imgsize := 33886208, offset := 0x12 } := by
  exact ⟨by decide, by decide, by decide, by decide⟩

end Isobar
